import Mathlib

/-!
Verification of the stark-bot backend against its specification.

The Rust sources are shallowly embedded: pure fragments become Lean
functions, SQL reads become filters over an in-memory table, stateful
operations pass their state explicitly, and I/O outcomes (database rows,
embedding-service results, LLM completions, filesystem resolution) are
taken as parameters.  Machine floating-point (`f32`/`f64`) is idealised
as `ℚ` where only exact rank arithmetic occurs and as `ℝ` where square
roots occur; machine integers are modelled as `Int`/`Nat` (no overflow is
reachable in the modelled fragments).  Timestamps are modelled as `Int`
(RFC-3339 strings compare in timestamp order).
-/

namespace StarkBot

/-! ## Data model: memories (src/stark-backend/src/models/memory.rs) -/

/-- `MemoryType` from models/memory.rs. -/
inductive MemoryType where
  | dailyLog
  | longTerm
  | sessionSummary
  | compaction
  | preference
  | fact
  | entity
  | task
deriving DecidableEq, Repr, Inhabited

/-- `Memory` from models/memory.rs.  Timestamps are `Int`, `log_date` an
`Int` day number, `confidence` a `ℚ`. -/
structure Memory where
  id : Int
  memoryType : MemoryType
  content : String
  category : Option String
  tags : Option String
  importance : Int
  identityId : Option String
  sessionId : Option Int
  sourceChannelType : Option String
  sourceMessageId : Option String
  logDate : Option Int
  createdAt : Int
  updatedAt : Int
  expiresAt : Option Int
  entityType : Option String
  entityName : Option String
  confidence : Option ℚ
  sourceType : Option String
  lastReferencedAt : Option Int
  supersededBy : Option Int
  supersededAt : Option Int
  validFrom : Option Int
  validUntil : Option Int
  temporalType : Option String
deriving DecidableEq, Repr, Inhabited

/-- `MemoryResponse` from models/memory.rs (the API projection of a
`Memory`; it drops `session_id`, `source_message_id`, `expires_at` and
`superseded_at`). -/
structure MemoryResponse where
  id : Int
  memoryType : MemoryType
  content : String
  category : Option String
  tags : Option String
  importance : Int
  identityId : Option String
  sourceChannelType : Option String
  logDate : Option Int
  createdAt : Int
  updatedAt : Int
  entityType : Option String
  entityName : Option String
  confidence : Option ℚ
  sourceType : Option String
  lastReferencedAt : Option Int
  supersededBy : Option Int
  validFrom : Option Int
  validUntil : Option Int
  temporalType : Option String
deriving DecidableEq, Repr

/-- `impl From<Memory> for MemoryResponse` (models/memory.rs). -/
def Memory.toResponse (m : Memory) : MemoryResponse where
  id := m.id
  memoryType := m.memoryType
  content := m.content
  category := m.category
  tags := m.tags
  importance := m.importance
  identityId := m.identityId
  sourceChannelType := m.sourceChannelType
  logDate := m.logDate
  createdAt := m.createdAt
  updatedAt := m.updatedAt
  entityType := m.entityType
  entityName := m.entityName
  confidence := m.confidence
  sourceType := m.sourceType
  lastReferencedAt := m.lastReferencedAt
  supersededBy := m.supersededBy
  validFrom := m.validFrom
  validUntil := m.validUntil
  temporalType := m.temporalType

/-! ## Exec tool (src/stark-backend/src/tools/builtin/exec.rs) -/

/-- `ExecTool` restriction state: `allow_list`, `deny_list`,
`max_timeout` (exec.rs lines 16-24). -/
structure ExecConfig where
  allowList : List String
  denyList : List String
  maxTimeout : Nat
deriving DecidableEq, Repr

/-- `ExecTool::default_deny_list` (exec.rs lines 105-161). -/
def defaultDenyList : List String :=
  ["rm", "rmdir", "dd", "mkfs", "fdisk", "parted",
   "nc", "netcat", "nmap",
   "sudo", "su", "doas", "pkexec",
   "systemctl", "service", "init",
   "apt", "apt-get", "yum", "dnf", "pacman", "brew",
   "sh", "bash", "zsh", "fish", "csh", "tcsh",
   "chmod", "chown", "chgrp",
   "kill", "killall", "pkill",
   "crontab", "at",
   "eval", "exec", "source",
   "export", "unset", "env"]

/-- `ExecTool::new()`: empty allow list, default deny list, 60 s timeout
(exec.rs lines 27-29). -/
def execToolNew : ExecConfig :=
  { allowList := [], denyList := defaultDenyList, maxTimeout := 60 }

/-- Rust `str::split(sep)` on a character list: the groups between
occurrences of `sep`, keeping empty groups (`"a/"` gives `["a", ""]`,
`""` gives `[""]`). -/
def splitOnCharList (sep : Char) : List Char → List (List Char)
  | [] => [[]]
  | c :: rest =>
    if c = sep then [] :: splitOnCharList sep rest
    else
      match splitOnCharList sep rest with
      | [] => [[c]]
      | g :: gs => (c :: g) :: gs

/-- Split at characters satisfying `p`, keeping empty groups. -/
def splitIfList (p : Char → Bool) : List Char → List (List Char)
  | [] => [[]]
  | c :: rest =>
    if p c then [] :: splitIfList p rest
    else
      match splitIfList p rest with
      | [] => [[c]]
      | g :: gs => (c :: g) :: gs

/-- Rust `str::split_whitespace`: maximal non-whitespace runs. -/
def splitWhitespaceList (s : List Char) : List (List Char) :=
  (splitIfList Char.isWhitespace s).filter (fun t => t ≠ [])

/-- Base-command extraction from `is_command_allowed`:
`command.split('/').last().unwrap_or(command).split_whitespace().next().unwrap_or(command)`
(exec.rs lines 165-171). -/
def baseCommand (command : String) : String :=
  let afterSlash := (splitOnCharList '/' command.toList).getLastD command.toList
  let tokens := splitWhitespaceList afterSlash
  String.mk (tokens.headD command.toList)

/-- The shell metacharacters rejected inside the command string
(exec.rs line 190).  The backtick and the braces are written via
`Char.ofNat` (code points 96, 123, 125). -/
def dangerousCommandChars : List Char :=
  ['|', ';', '&', '$', Char.ofNat 96, '(', ')', Char.ofNat 123,
   Char.ofNat 125, '<', '>', '!', '\\']

/-- The metacharacters rejected inside each argument
(exec.rs line 236) - a strictly smaller set than
`dangerousCommandChars`. -/
def dangerousArgChars : List Char :=
  ['|', ';', '&', '$', Char.ofNat 96, '(', ')', '<', '>']

/-- `s.chars().any(|c| chars.contains(&c))`. -/
def containsAnyChar (s : String) (cs : List Char) : Bool :=
  s.toList.any (fun c => cs.contains c)

/-- `ExecTool::is_command_allowed` (exec.rs lines 163-198). -/
def isCommandAllowed (cfg : ExecConfig) (command : String) : Except String Unit :=
  let baseCmd := baseCommand command
  if cfg.allowList ≠ [] then
    if cfg.allowList.any (fun c => c = baseCmd) then
      Except.ok ()
    else
      Except.error ("Command '" ++ baseCmd ++ "' is not in the allowed commands list")
  else if cfg.denyList.any (fun c => c = baseCmd) then
    Except.error ("Command '" ++ baseCmd ++ "' is not allowed for security reasons")
  else if containsAnyChar command dangerousCommandChars then
    Except.error "Command contains shell metacharacters which are not allowed"
  else
    Except.ok ()

/-- The argument validation loop in `ExecTool::execute`
(exec.rs lines 233-244): the first argument containing a character of
`dangerousArgChars` produces an error. -/
def validateExecArgs (args : Option (List String)) : Option String :=
  match args with
  | none => none
  | some l =>
    match l.find? (fun a => containsAnyChar a dangerousArgChars) with
    | some a => some ("Argument '" ++ a ++ "' contains potentially dangerous characters")
    | none => none

/-- The validation prefix of `ExecTool::execute` (exec.rs lines
227-244): command admission followed by argument screening.  `none`
means validation passed and execution proceeds to spawn the process
with exactly these arguments. -/
def validateExecRequest (cfg : ExecConfig) (command : String)
    (args : Option (List String)) : Option String :=
  match isCommandAllowed cfg command with
  | Except.error e => some e
  | Except.ok _ => validateExecArgs args

/-! ## Memory store reads (src/stark-backend/src/db/tables/memories.rs)

Each SQL read is embedded as a filter over an in-memory `memories`
table, followed by the query's `ORDER BY` (a stable insertion sort) and
`LIMIT`.  The FTS index is an oracle pair (`ftsMatch`, `rank`). -/

/-- `ORDER BY created_at ASC`. -/
def byCreatedAsc (a b : Memory) : Prop := a.createdAt ≤ b.createdAt

/-- `ORDER BY created_at DESC`. -/
def byCreatedDesc (a b : Memory) : Prop := b.createdAt ≤ a.createdAt

/-- `ORDER BY importance DESC, created_at DESC`. -/
def byImportanceCreatedDesc (a b : Memory) : Prop :=
  b.importance < a.importance ∨
    (b.importance = a.importance ∧ b.createdAt ≤ a.createdAt)

instance : DecidableRel byCreatedAsc :=
  fun a b => inferInstanceAs (Decidable (a.createdAt ≤ b.createdAt))

instance : DecidableRel byCreatedDesc :=
  fun a b => inferInstanceAs (Decidable (b.createdAt ≤ a.createdAt))

instance : DecidableRel byImportanceCreatedDesc :=
  fun a b => inferInstanceAs (Decidable (b.importance < a.importance ∨
    (b.importance = a.importance ∧ b.createdAt ≤ a.createdAt)))

/-- An optional SQL equality filter `identity_id = ?` (absent filter
accepts everything; a NULL column never matches). -/
def identityFilter (identityId : Option String) (m : Memory) : Bool :=
  match identityId with
  | none => true
  | some iid => decide (m.identityId = some iid)

/-- An optional `memory_type = ?` filter. -/
def typeFilter (memoryType : Option MemoryType) (m : Memory) : Bool :=
  match memoryType with
  | none => true
  | some t => decide (m.memoryType = t)

/-- `MemorySearchResult` from models/memory.rs (the BM25 rank is a
`ℚ`). -/
structure MemorySearchResult where
  memory : MemoryResponse
  rank : ℚ
deriving DecidableEq, Repr

/-- `Database::search_memories` (memories.rs lines 135-218): FTS match,
`superseded_by IS NULL`, optional type/identity/category/importance
filters, `ORDER BY rank LIMIT ?`. -/
def searchMemories (ftsMatch : Memory → Bool) (rank : Memory → ℚ)
    (memoryType : Option MemoryType) (identityId category : Option String)
    (minImportance : Option Int) (lim : Nat) (db : List Memory) :
    List MemorySearchResult :=
  let pred := fun m =>
    ftsMatch m && decide (m.supersededBy = none) && typeFilter memoryType m &&
    identityFilter identityId m &&
    (match category with
     | none => true
     | some c => decide (m.category = some c)) &&
    (match minImportance with
     | none => true
     | some mi => decide (mi ≤ m.importance))
  (((db.filter pred).insertionSort (fun a b => rank a ≤ rank b)).take lim).map
    (fun m => { memory := m.toResponse, rank := rank m : MemorySearchResult })

/-- `Database::get_todays_daily_logs` (memories.rs lines 221-254):
`memory_type = 'daily_log' AND log_date = today AND superseded_by IS
NULL` plus the optional identity filter, `ORDER BY created_at ASC`. -/
def getTodaysDailyLogs (today : Int) (identityId : Option String)
    (db : List Memory) : List Memory :=
  (db.filter (fun m =>
    decide (m.memoryType = MemoryType.dailyLog) && decide (m.logDate = some today) &&
    identityFilter identityId m && decide (m.supersededBy = none))).insertionSort
    byCreatedAsc

/-- `Database::get_long_term_memories` (memories.rs lines 257-300):
user memory types, optional identity, `importance >= min`,
`superseded_by IS NULL`, the temporal-validity window, `ORDER BY
importance DESC, created_at DESC LIMIT ?`. -/
def getLongTermMemories (identityId : Option String) (minImportance : Option Int)
    (now : Int) (lim : Nat) (db : List Memory) : List Memory :=
  let minImp := minImportance.getD 0
  ((db.filter (fun m =>
    decide (m.memoryType ∈ [MemoryType.longTerm, MemoryType.preference,
      MemoryType.fact, MemoryType.entity, MemoryType.task]) &&
    identityFilter identityId m && decide (minImp ≤ m.importance) &&
    decide (m.supersededBy = none) &&
    (match m.validFrom with
     | none => true
     | some v => decide (v ≤ now)) &&
    (match m.validUntil with
     | none => true
     | some v => decide (now ≤ v)))).insertionSort
    byImportanceCreatedDesc).take lim

/-- `Database::get_session_summaries` (memories.rs lines 303-335):
`memory_type = 'session_summary'` plus the optional identity filter,
`ORDER BY created_at DESC LIMIT ?`.  Note: this query carries no
`superseded_by IS NULL` condition. -/
def getSessionSummaries (identityId : Option String) (lim : Nat)
    (db : List Memory) : List Memory :=
  ((db.filter (fun m =>
    decide (m.memoryType = MemoryType.sessionSummary) &&
    identityFilter identityId m)).insertionSort byCreatedDesc).take lim

/-- `Database::get_memories_by_entity` (memories.rs lines 523-580):
`entity_type = ?`, optional entity-name and identity filters,
`superseded_by IS NULL`, `ORDER BY importance DESC, created_at DESC
LIMIT ?`. -/
def getMemoriesByEntity (entityType : String) (entityName identityId : Option String)
    (lim : Nat) (db : List Memory) : List Memory :=
  ((db.filter (fun m =>
    decide (m.entityType = some entityType) &&
    (match entityName with
     | none => true
     | some n => decide (m.entityName = some n)) &&
    identityFilter identityId m &&
    decide (m.supersededBy = none))).insertionSort byImportanceCreatedDesc).take lim

/-- `Database::get_valid_memories` (memories.rs lines 583-622):
`superseded_by IS NULL`, the temporal window, optional identity and
type-list filters, `ORDER BY importance DESC, created_at DESC
LIMIT ?`. -/
def getValidMemories (identityId : Option String)
    (memoryTypes : Option (List MemoryType)) (now : Int) (lim : Nat)
    (db : List Memory) : List Memory :=
  ((db.filter (fun m =>
    decide (m.supersededBy = none) &&
    (match m.validFrom with
     | none => true
     | some v => decide (v ≤ now)) &&
    (match m.validUntil with
     | none => true
     | some v => decide (now ≤ v)) &&
    identityFilter identityId m &&
    (match memoryTypes with
     | none => true
     | some ts => decide (m.memoryType ∈ ts)))).insertionSort
    byImportanceCreatedDesc).take lim

/-- `Database::get_memory` (memories.rs lines 486-498): lookup by id,
with no superseded filter. -/
def getMemory (id : Int) (db : List Memory) : Option Memory :=
  db.find? (fun m => decide (m.id = id))

/-- The column assignment of `supersede_memory`: `superseded_by = ?1,
superseded_at = ?2, updated_at = ?2`. -/
def applySupersession (supersededById now : Int) (m : Memory) : Memory :=
  { m with supersededBy := some supersededById, supersededAt := some now,
           updatedAt := now }

/-- `Database::supersede_memory` (memories.rs lines 501-509): set
`superseded_by`, `superseded_at` and `updated_at` on the row with the
given id. -/
def supersedeMemory (memoryId supersededById now : Int) (db : List Memory) :
    List Memory :=
  db.map (fun m =>
    if m.id = memoryId then applySupersession supersededById now m else m)

/-- The embedding-table linear scan of `HybridSearcher::vector_search`
(search.rs lines 119-139): join `memory_embeddings` with `memories`,
`superseded_by IS NULL` plus optional type/identity filters, capped at
1000 rows.  Embedding vectors are the `ℝ`-idealised stored `f32`
blobs. -/
def vectorScanRows (memoryType : Option MemoryType) (identityId : Option String)
    (db : List Memory) (embeddings : List (Int × List ℝ)) : List (Int × List ℝ) :=
  (embeddings.filter (fun e => db.any (fun m =>
    decide (m.id = e.1) && decide (m.supersededBy = none) &&
    typeFilter memoryType m && identityFilter identityId m))).take 1000

/-- `MemoryConsolidator::get_memories_with_embeddings`
(consolidation.rs lines 256-301): memories of the identity having an
embedding, `superseded_by IS NULL`, optional type filter, `ORDER BY
created_at DESC LIMIT ?`. -/
def getMemoriesWithEmbeddings (identityId : String) (memoryType : Option MemoryType)
    (lim : Nat) (db : List Memory) (embeddings : List (Int × List ℝ)) :
    List (Memory × List ℝ) :=
  (((db.filter (fun m =>
      decide (m.identityId = some identityId) && decide (m.supersededBy = none) &&
      typeFilter memoryType m)).insertionSort byCreatedDesc).filterMap
    (fun m => (embeddings.find? (fun e => decide (e.1 = m.id))).map
      (fun e => (m, e.2)))).take lim

/-! ## Hybrid search (src/stark-backend/src/memory/search.rs)

The FTS and embedding I/O of `HybridSearcher::search` is abstracted:
the BM25 result list, the vector-search result list, the
embedding-service outcome and the by-id lookup are parameters.  RRF
scores are exact rationals (`f64` idealised as `ℚ`); vector similarity
values (unused by the fusion) stay `ℝ`. -/

/-- `SearchResult` (search.rs lines 12-21). -/
structure SearchResult where
  memory : Memory
  score : ℚ
  bm25Rank : Option Int
  vectorRank : Option Int
deriving DecidableEq, Repr

/-- The descending-score comparison of
`results.sort_by(|a, b| b.score.partial_cmp(&a.score))`
(search.rs line 207). -/
def scoreDescRel (a b : SearchResult) : Prop := b.score ≤ a.score

instance : DecidableRel scoreDescRel :=
  fun a b => inferInstanceAs (Decidable (b.score ≤ a.score))

instance : IsTotal SearchResult scoreDescRel :=
  ⟨fun a b => le_total b.score a.score⟩

instance : IsTrans SearchResult scoreDescRel :=
  ⟨fun _ _ _ hab hbc => le_trans hbc hab⟩

/-- `HybridSearcher::response_to_memory` (search.rs lines 214-241):
rebuild a `Memory` from the response projection (`session_id`,
`source_message_id`, `expires_at`, `superseded_at` become `None`). -/
def responseToMemory (r : MemoryResponse) : Memory :=
  { id := r.id, memoryType := r.memoryType, content := r.content,
    category := r.category, tags := r.tags, importance := r.importance,
    identityId := r.identityId, sessionId := none,
    sourceChannelType := r.sourceChannelType, sourceMessageId := none,
    logDate := r.logDate, createdAt := r.createdAt, updatedAt := r.updatedAt,
    expiresAt := none, entityType := r.entityType, entityName := r.entityName,
    confidence := r.confidence, sourceType := r.sourceType,
    lastReferencedAt := r.lastReferencedAt, supersededBy := r.supersededBy,
    supersededAt := none, validFrom := r.validFrom, validUntil := r.validUntil,
    temporalType := r.temporalType }

/-- The RRF constant `rrf_k` (search.rs line 39). -/
def rrfK : ℚ := 60

/-- One cell of the RRF accumulation `HashMap`
(`(f64, Option<i32>, Option<i32>, Option<Memory>)`, search.rs line
171). -/
structure RrfAcc where
  score : ℚ
  bm25Rank : Option Int
  vectorRank : Option Int
  memory : Option Memory
deriving DecidableEq, Repr

/-- The `or_insert((0.0, None, None, None))` default. -/
def emptyAcc : RrfAcc :=
  { score := 0, bm25Rank := none, vectorRank := none, memory := none }

/-- `scores.entry(key).or_insert(default)` followed by the in-place
update `f`.  The `HashMap` is modelled as an insertion-ordered
association list (iteration order of the Rust map is unspecified; it
only feeds a sort by score). -/
def updateAssoc (l : List (Int × RrfAcc)) (key : Int) (f : RrfAcc → RrfAcc) :
    List (Int × RrfAcc) :=
  if l.any (fun e => e.1 = key) then
    l.map (fun e => if e.1 = key then (e.1, f e.2) else e)
  else l ++ [(key, f emptyAcc)]

/-- The BM25 accumulation loop (search.rs lines 174-180); `n` is the
0-based enumeration index. -/
def addBm25 : List (Int × RrfAcc) → Nat → List MemorySearchResult →
    List (Int × RrfAcc)
  | acc, _, [] => acc
  | acc, n, r :: rest =>
    addBm25 (updateAssoc acc r.memory.id (fun a =>
      { a with score := a.score + 1 / (rrfK + (n + 1 : ℚ)),
               bm25Rank := some ((n : Int) + 1),
               memory := some (responseToMemory r.memory) })) (n + 1) rest

/-- The vector accumulation loop (search.rs lines 183-188). -/
def addVector : List (Int × RrfAcc) → Nat → List (Int × ℝ) →
    List (Int × RrfAcc)
  | acc, _, [] => acc
  | acc, n, v :: rest =>
    addVector (updateAssoc acc v.1 (fun a =>
      { a with score := a.score + 1 / (rrfK + (n + 1 : ℚ)),
               vectorRank := some ((n : Int) + 1) })) (n + 1) rest

/-- `HybridSearcher::reciprocal_rank_fusion` (search.rs lines 165-211):
accumulate both rank lists, materialise each entry (a memory missing
from BM25 is fetched by id, a failed fetch drops the entry), sort by
combined score descending, truncate to the limit. -/
def reciprocalRankFusion (lookup : Int → Option Memory)
    (bm25Results : List MemorySearchResult) (vectorResults : List (Int × ℝ))
    (lim : Nat) : List SearchResult :=
  let entries := addVector (addBm25 [] 0 bm25Results) 0 vectorResults
  let results := entries.filterMap (fun e =>
    match e.2.memory.orElse (fun _ => lookup e.1) with
    | some m => some { memory := m, score := e.2.score,
                       bm25Rank := e.2.bm25Rank, vectorRank := e.2.vectorRank }
    | none => none)
  (results.insertionSort scoreDescRel).take lim

/-- `HybridSearcher::search` (search.rs lines 49-106).  `vectorEnabled`
is `vector_search_enabled()`, `embedOk` the query-embedding outcome;
both fallbacks return the BM25 list (scored `-rank`, `bm25_rank = 1`)
truncated to the limit. -/
def hybridSearch (vectorEnabled embedOk : Bool)
    (lookup : Int → Option Memory) (bm25Results : List MemorySearchResult)
    (vectorResults : List (Int × ℝ)) (lim : Nat) : List SearchResult :=
  if ¬ vectorEnabled then
    (bm25Results.take lim).map (fun r =>
      { memory := responseToMemory r.memory, score := -r.rank,
        bm25Rank := some 1, vectorRank := none })
  else if ¬ embedOk then
    (bm25Results.take lim).map (fun r =>
      { memory := responseToMemory r.memory, score := -r.rank,
        bm25Rank := some 1, vectorRank := none })
  else
    reciprocalRankFusion lookup bm25Results vectorResults lim

/-- The claim's per-list reciprocal contribution: `1 / (60 + rank)` at
the 1-based rank of the first occurrence, 0 when absent. -/
def rankContribution (ids : List Int) (id : Int) : ℚ :=
  match ids.findIdx? (fun i => i = id) with
  | some i => 1 / (60 + ((i : ℚ) + 1))
  | none => 0

/-- The claim's RRF score with `k = 60`: the sum of the reciprocal
contributions of the BM25 and vector rank lists. -/
def rrfScoreSpec (bm25Ids vecIds : List Int) (id : Int) : ℚ :=
  rankContribution bm25Ids id + rankContribution vecIds id

/-- Verification auxiliary: closed form of the BM25 accumulation when
all keys are fresh. -/
def bm25Entries : Nat → List MemorySearchResult → List (Int × RrfAcc)
  | _, [] => []
  | n, r :: rest =>
    (r.memory.id,
      { score := 1 / (rrfK + (n + 1 : ℚ)), bm25Rank := some ((n : Int) + 1),
        vectorRank := none, memory := some (responseToMemory r.memory) }) ::
    bm25Entries (n + 1) rest

/-- Verification auxiliary: the effect of the whole vector loop on one
pre-existing cell. -/
def applyVector (n : Nat) (vec : List (Int × ℝ)) (e : Int × RrfAcc) :
    Int × RrfAcc :=
  match vec.findIdx? (fun v => v.1 = e.1) with
  | some i =>
    (e.1,
      { e.2 with
          score := e.2.score + 1 / (rrfK + (n + i + 1 : ℚ)),
          vectorRank := some ((n : Int) + i + 1) })
  | none => e

/-- Verification auxiliary: the cells appended by the vector loop for
keys missing from the accumulator. -/
def vecOnlyEntries : Nat → List (Int × ℝ) → List Int → List (Int × RrfAcc)
  | _, [], _ => []
  | n, v :: rest, keys =>
    if v.1 ∈ keys then vecOnlyEntries (n + 1) rest keys
    else
      (v.1, { score := 1 / (rrfK + (n + 1 : ℚ)), bm25Rank := none,
              vectorRank := some ((n : Int) + 1), memory := none }) ::
      vecOnlyEntries (n + 1) rest keys

/-- Verification auxiliary: the fused accumulator entries of
`reciprocal_rank_fusion` (the two loops of search.rs lines 174-188). -/
def rrfEntries (bm25Results : List MemorySearchResult)
    (vectorResults : List (Int × ℝ)) : List (Int × RrfAcc) :=
  addVector (addBm25 [] 0 bm25Results) 0 vectorResults

/-- Verification auxiliary: the materialisation step of
`reciprocal_rank_fusion` (search.rs lines 191-205). -/
def rrfMaterialise (lookup : Int → Option Memory)
    (entries : List (Int × RrfAcc)) : List SearchResult :=
  entries.filterMap (fun e =>
    match e.2.memory.orElse (fun _ => lookup e.1) with
    | some m => some { memory := m, score := e.2.score,
                       bm25Rank := e.2.bm25Rank, vectorRank := e.2.vectorRank }
    | none => none)

/-! ## Cosine similarity (search.rs lines 332-349 and the identical
copy in consolidation.rs lines 332-349)

The `f32` inputs and `f64` arithmetic are idealised over `ℝ`. -/

/-- `a.iter().zip(b.iter()).map(|(x, y)| x * y).sum()`. -/
def listDot (a b : List ℝ) : ℝ := (List.zipWith (fun x y => x * y) a b).sum

/-- `v.iter().map(|x| x.powi(2)).sum()`. -/
def sumSquares (a : List ℝ) : ℝ := (a.map (fun x => x ^ 2)).sum

open Classical in
/-- `cosine_similarity` (search.rs lines 332-349): zero on unequal
lengths, emptiness or a zero norm, otherwise the normalised dot
product. -/
noncomputable def cosineSimilarity (a b : List ℝ) : ℝ :=
  if a.length ≠ b.length ∨ a = [] then 0
  else if Real.sqrt (sumSquares a) = 0 ∨ Real.sqrt (sumSquares b) = 0 then 0
  else listDot a b / (Real.sqrt (sumSquares a) * Real.sqrt (sumSquares b))

/-! ## Consolidation: merging a cluster
(src/stark-backend/src/memory/consolidation.rs) -/

/-- `Database::create_memory_extended` (memories.rs lines 45-132): the
inserted row, given the fresh rowid and the current time.  Confidence
defaults to 1, `source_type` to `"inferred"`. -/
def createMemoryExtended (newId now : Int) (memoryType : MemoryType)
    (content : String) (category tags : Option String) (importance : Int)
    (identityId : Option String) (sessionId : Option Int)
    (sourceChannelType sourceMessageId : Option String)
    (logDate expiresAt : Option Int) (entityType entityName : Option String)
    (confidence : Option ℚ) (sourceType : Option String)
    (validFrom validUntil : Option Int) (temporalType : Option String) :
    Memory :=
  { id := newId, memoryType := memoryType, content := content,
    category := category, tags := tags, importance := importance,
    identityId := identityId, sessionId := sessionId,
    sourceChannelType := sourceChannelType,
    sourceMessageId := sourceMessageId, logDate := logDate,
    createdAt := now, updatedAt := now, expiresAt := expiresAt,
    entityType := entityType, entityName := entityName,
    confidence := some (confidence.getD 1),
    sourceType := some (sourceType.getD "inferred"),
    lastReferencedAt := none, supersededBy := none, supersededAt := none,
    validFrom := validFrom, validUntil := validUntil,
    temporalType := temporalType }

/-- Rust `str::trim` (Unicode whitespace trimmed from both ends;
modelled with `Char.isWhitespace`). -/
def rustTrim (s : String) : String :=
  String.mk
    (((s.toList.dropWhile Char.isWhitespace).reverse.dropWhile
      Char.isWhitespace).reverse)

/-- `cluster.memories.iter().map(|m| m.importance).max().unwrap_or(5)`
(consolidation.rs lines 153-156). -/
def maxImportance (cluster : List Memory) : Int :=
  ((cluster.map (fun m => m.importance)).maximum).unbot' 5

/-- `MemoryConsolidator::merge_memories` (consolidation.rs lines
104-196).  The LLM completion (`client.generate_text`) is the
`mergedContent` parameter; `newId`/`now` stand for the fresh rowid and
clock.  Returns the consolidated memory together with the updated
table: the new row is inserted and every cluster member's
`superseded_by` is set to its id. -/
def mergeMemories (cluster : List Memory) (mergedContent : String)
    (identityId : String) (newId now : Int) (db : List Memory) :
    Except String (Memory × List Memory) :=
  match cluster with
  | [] => Except.error "Cannot merge empty cluster"
  | [m] => Except.ok (m, db)
  | first :: rest =>
    let maxImp := maxImportance (first :: rest)
    let consolidated := createMemoryExtended newId now first.memoryType
      (rustTrim mergedContent) (some "consolidated") none maxImp (some identityId)
      none none none none none first.entityType first.entityName (some 1)
      (some "consolidated") none none none
    let db1 := db ++ [consolidated]
    let db2 := (first :: rest).foldl
      (fun acc m => supersedeMemory m.id consolidated.id now acc) db1
    Except.ok (consolidated, db2)

/-! ## Consolidation: deduplication (consolidation.rs lines 199-253) -/

/-- Keep/remove selection for a near-duplicate pair (consolidation.rs
lines 224-232): strictly higher importance wins, ties go to the
earlier-or-equal `created_at` of the earlier-indexed memory. -/
def pickKeepRemove (a b : Memory) : Memory × Memory :=
  if b.importance < a.importance then (a, b)
  else if a.importance < b.importance then (b, a)
  else if a.createdAt ≤ b.createdAt then (a, b)
  else (b, a)

open Classical in
/-- The inner loop of `deduplicate` (consolidation.rs lines 214-237):
pair the fixed memory `a` with each later memory not already marked for
removal; above threshold 0.95 record the pair and mark the loser. -/
noncomputable def dedupScanInner (a : Memory × List ℝ) :
    List (Memory × List ℝ) → List Int → List (Int × Int × ℝ) →
    List Int × List (Int × Int × ℝ)
  | [], toRemove, dups => (toRemove, dups)
  | b :: rest, toRemove, dups =>
    if b.1.id ∈ toRemove then dedupScanInner a rest toRemove dups
    else if (0.95 : ℝ) ≤ cosineSimilarity a.2 b.2 then
      dedupScanInner a rest ((pickKeepRemove a.1 b.1).2.id :: toRemove)
        (dups ++ [((pickKeepRemove a.1 b.1).1.id,
          (pickKeepRemove a.1 b.1).2.id, cosineSimilarity a.2 b.2)])
    else dedupScanInner a rest toRemove dups

open Classical in
/-- The outer loop of `deduplicate` (consolidation.rs lines 209-238):
skip memories already marked for removal, otherwise run the inner scan
over the suffix. -/
noncomputable def dedupScanOuter :
    List (Memory × List ℝ) → List Int → List (Int × Int × ℝ) →
    List Int × List (Int × Int × ℝ)
  | [], toRemove, dups => (toRemove, dups)
  | a :: rest, toRemove, dups =>
    if a.1.id ∈ toRemove then dedupScanOuter rest toRemove dups
    else
      dedupScanOuter rest (dedupScanInner a rest toRemove dups).1
        (dedupScanInner a rest toRemove dups).2

/-- `DeduplicationResult` (consolidation.rs lines 323-329). -/
structure DeduplicationResult where
  duplicatesFound : Nat
  duplicatesRemoved : Nat
  pairs : List (Int × Int × ℝ)

/-- `MemoryConsolidator::deduplicate` (consolidation.rs lines 199-253):
scan the loaded memories pairwise, and unless `dry_run`, supersede each
recorded loser by its keeper in pair order. -/
noncomputable def deduplicate (memories : List (Memory × List ℝ))
    (dryRun : Bool) (now : Int) (db : List Memory) :
    DeduplicationResult × List Memory :=
  let dups := (dedupScanOuter memories [] []).2
  let db2 := if dryRun then db
    else dups.foldl (fun acc p => supersedeMemory p.2.1 p.1 now acc) db
  ({ duplicatesFound := dups.length,
     duplicatesRemoved := if dryRun then 0 else dups.length,
     pairs := dups }, db2)

/-! ## Execution tracker (src/stark-backend/src/execution/tracker.rs) -/

/-- Modelled from the spec: `TaskMetrics` (§3; the models file is not
under src/, its fields are fixed by their uses in tracker.rs). -/
structure TaskMetrics where
  toolUses : Nat
  tokensUsed : Nat
  linesRead : Nat
  childCount : Nat
  durationMs : Int
deriving DecidableEq, Repr

/-- Modelled from the spec: task status (§3). -/
inductive TaskStatus where
  | pending
  | running
  | completed
  | errored
deriving DecidableEq, Repr

/-- Modelled from the spec: task type (§3). -/
inductive TaskType where
  | execution
  | toolExecution
  | subtask
deriving DecidableEq, Repr

/-- Modelled from the spec: `ExecutionTask` (§3).  Timestamps are not
modelled (the pure embedding has no clock). -/
structure ExecutionTask where
  id : String
  channelId : Int
  taskType : TaskType
  description : String
  activeForm : Option String
  parent : Option String
  metrics : TaskMetrics
  status : TaskStatus
deriving DecidableEq, Repr

/-- Modelled from the spec: `ExecutionTask::complete` finalizes the
status (the duration field is untouched here since time is not
modelled). -/
def completeTask (t : ExecutionTask) : ExecutionTask :=
  { t with status := TaskStatus.completed }

/-- The tracker's two concurrent maps (tracker.rs lines 11-18),
modelled as association lists. -/
structure TrackerState where
  tasks : List (String × ExecutionTask)
  channelExecutions : List (Int × String)
deriving DecidableEq, Repr

/-- Association-list lookup (the `DashMap::get`). -/
def assocFind {κ β : Type} [DecidableEq κ] (l : List (κ × β)) (k : κ) :
    Option β :=
  (l.find? (fun e => decide (e.1 = k))).map (fun e => e.2)

/-- `ExecutionTracker::complete_execution` (tracker.rs lines 185-219):
remove the channel's execution entry, sum `tool_uses`, `tokens_used`
and `lines_read` over every task whose `channel_id` matches, complete
the root, take `duration_ms` from it, emit the totals and delete all
collected task ids.  Returns the new state and the emitted metrics. -/
def completeExecution (channelId : Int) (st : TrackerState) :
    TrackerState × Option TaskMetrics :=
  match assocFind st.channelExecutions channelId with
  | none => (st, none)
  | some executionId =>
    let channelExecs := st.channelExecutions.filter
      (fun e => decide (¬ e.1 = channelId))
    let channelTasks := st.tasks.filter
      (fun e => decide (e.2.channelId = channelId))
    let idsToRemove := channelTasks.map (fun e => e.1)
    let tasks1 := st.tasks.map (fun e =>
      if e.1 = executionId then (e.1, completeTask e.2) else e)
    let durationFromRoot : Int :=
      match assocFind tasks1 executionId with
      | some root => root.metrics.durationMs
      | none => 0
    let total : TaskMetrics :=
      { toolUses := (channelTasks.map (fun e => e.2.metrics.toolUses)).sum,
        tokensUsed := (channelTasks.map (fun e => e.2.metrics.tokensUsed)).sum,
        linesRead := (channelTasks.map (fun e => e.2.metrics.linesRead)).sum,
        childCount := 0,
        durationMs := durationFromRoot }
    let tasks2 := tasks1.filter (fun e => decide (¬ e.1 ∈ idsToRemove))
    ({ tasks := tasks2, channelExecutions := channelExecs }, some total)

/-- A task is a proper descendant of `rootId` when its parent chain
reaches `rootId` (fuelled parent-pointer walk; the claim's notion of
descendant). -/
def isDescendantFuel (tasks : List (String × ExecutionTask)) (rootId : String) :
    Nat → ExecutionTask → Bool
  | 0, _ => false
  | fuel + 1, t =>
    match t.parent with
    | none => false
    | some p =>
      decide (p = rootId) ||
        (match assocFind tasks p with
         | some pt => isDescendantFuel tasks rootId fuel pt
         | none => false)

/-- Sum of one metric over every proper descendant of `rootId`. -/
def descendantSum (tasks : List (String × ExecutionTask)) (rootId : String)
    (f : TaskMetrics → Nat) : Nat :=
  ((tasks.filter (fun e =>
    isDescendantFuel tasks rootId tasks.length e.2)).map
    (fun e => f e.2.metrics)).sum

/-! ## Claude adapter (src/stark-backend/src/ai/claude.rs)

Only the post-parse step is embedded: the upstream response body is the
list of already-deserialised content blocks; `α` is the JSON value type
of `tool_use` inputs. -/

/-- `ClaudeResponseContent` (claude.rs lines 52-64). -/
structure ClaudeResponseContent (α : Type) where
  contentType : String
  text : Option String
  id : Option String
  name : Option String
  input : Option α
deriving DecidableEq, Repr

/-- `ToolCall` as built by the adapter (claude.rs lines 284-288). -/
structure ToolCall (α : Type) where
  id : String
  name : String
  arguments : α
deriving DecidableEq, Repr

/-- `AiResponse` (claude.rs lines 295-299). -/
structure AiResponse (α : Type) where
  content : String
  toolCalls : List (ToolCall α)
  stopReason : Option String
deriving DecidableEq, Repr

/-- Rust `collect::<String>()`: concatenation. -/
def concatStrings (l : List String) : String :=
  l.foldl (fun acc s => acc ++ s) ""

/-- The text extraction of `generate_text` (claude.rs lines 168-173):
concatenate the `text` of every `text` block. -/
def generateTextContent {α : Type} (content : List (ClaudeResponseContent α)) :
    String :=
  concatStrings ((content.filter (fun c => c.contentType = "text")).filterMap
    (fun c => c.text))

/-- The post-parse step of `generate_text` (claude.rs lines 168-179):
empty concatenated text is the `Empty` provider error. -/
def generateTextCore {α : Type} (content : List (ClaudeResponseContent α)) :
    Except String String :=
  let text := generateTextContent content
  if text = "" then Except.error "Claude API returned no content"
  else Except.ok text

/-- One step of the block loop of `generate_with_tools` (claude.rs
lines 273-293): `text` blocks extend the text, complete `tool_use`
blocks append a tool call, everything else is skipped. -/
def claudeCollectStep {α : Type} (acc : String × List (ToolCall α))
    (c : ClaudeResponseContent α) : String × List (ToolCall α) :=
  if c.contentType = "text" then
    match c.text with
    | some t => (acc.1 ++ t, acc.2)
    | none => acc
  else if c.contentType = "tool_use" then
    match c.id, c.name, c.input with
    | some i, some n, some inp => (acc.1, acc.2 ++ [ToolCall.mk i n inp])
    | _, _, _ => acc
  else acc

/-- The post-parse step of `generate_with_tools` (claude.rs lines
264-300): unconditionally a success - there is no `Empty` check on
this path. -/
def generateWithToolsCore {α : Type} (content : List (ClaudeResponseContent α))
    (stopReason : Option String) : Except String (AiResponse α) :=
  let acc := content.foldl claudeCollectStep ("", [])
  Except.ok { content := acc.1, toolCalls := acc.2, stopReason := stopReason }

/-- Constructor for concrete test rows (witness inputs only; the
remaining columns are NULL). -/
def mkTestMemory (id : Int) (t : MemoryType) (content : String)
    (imp created : Int) (identityId : Option String) (sup : Option Int) :
    Memory :=
  { id := id, memoryType := t, content := content, category := none,
    tags := none, importance := imp, identityId := identityId,
    sessionId := none, sourceChannelType := none, sourceMessageId := none,
    logDate := none, createdAt := created, updatedAt := created,
    expiresAt := none, entityType := none, entityName := none,
    confidence := none, sourceType := none, lastReferencedAt := none,
    supersededBy := sup, supersededAt := none, validFrom := none,
    validUntil := none, temporalType := none }

/-! ## read_file tool (src/stark-backend/src/tools/builtin/read_file.rs)

Paths are component lists with an absolute flag; the filesystem
(canonicalisation, existence, reads) is an oracle record.  The
execution function additionally returns the list of canonical paths it
actually read, so that "performs no read" is statable. -/

/-- A filesystem path: absolute flag plus components. -/
structure PathSpec where
  absolute : Bool
  components : List String
deriving DecidableEq, Repr

/-- `Path::join`: an absolute right operand replaces the base. -/
def joinPath (base p : PathSpec) : PathSpec :=
  if p.absolute then p
  else { absolute := base.absolute, components := base.components ++ p.components }

/-- The filesystem oracle: canonicalisation (`None` mirrors an `Err`),
existence, file check and the read itself. -/
structure FileSys where
  canon : PathSpec → Option (List String)
  pathExists : List String → Bool
  isFile : List String → Bool
  readToString : List String → Option String
  cwd : PathSpec

/-- Modelled from the spec: `ToolResult` (§3; tools/types.rs is not
under src/).  `success`/`error` mirror `ToolResult::success` and
`ToolResult::error`. -/
structure ToolResult where
  success : Bool
  content : String
  error : Option String
deriving DecidableEq, Repr

/-- Modelled from the spec: `ToolResult::error`. -/
def ToolResult.mkError (msg : String) : ToolResult :=
  { success := false, content := "", error := some msg }

/-- Modelled from the spec: `ToolResult::success`. -/
def ToolResult.mkSuccess (content : String) : ToolResult :=
  { success := true, content := content, error := none }

/-- `ReadFileParams` (read_file.rs lines 72-77). -/
structure ReadFileParams where
  path : PathSpec
  maxLines : Option Nat
  offset : Option Nat
deriving DecidableEq, Repr

/-- Display form of the requested path used in error messages. -/
def pathText (p : PathSpec) : String :=
  String.intercalate "/" p.components

/-- Rust `str::lines`: split at `\n`, drop a final line terminator,
strip a trailing `\r` from each line. -/
def rustLines (s : String) : List String :=
  if s = "" then []
  else
    let raw := splitOnCharList '\n' s.toList
    let raw := if raw.getLast? = some [] then raw.dropLast else raw
    raw.map (fun l =>
      String.mk (if l.getLast? = some '\r' then l.dropLast else l))

/-- Rust `format!("{:>5}", s)`: right-align to width 5. -/
def padLeft5 (s : String) : String :=
  String.mk (List.replicate (5 - s.length) ' ') ++ s

/-- The line-numbered output assembly of `ReadFileTool::execute`
(read_file.rs lines 145-191). -/
def formatReadOutput (offset maxLines : Nat) (content : String) : ToolResult :=
  let lines := rustLines content
  let totalLines := lines.length
  if totalLines ≤ offset then
    ToolResult.mkSuccess ("[Empty: offset " ++ toString offset ++
      " exceeds total lines " ++ toString totalLines ++ "]")
  else
    let endIdx := min (offset + maxLines) totalLines
    let selected := ((lines.drop offset).take (endIdx - offset)).enum.map
      (fun e => padLeft5 (toString (offset + e.1 + 1)) ++ "│ " ++ e.2)
    let result := String.intercalate "\n" selected
    if endIdx < totalLines then
      ToolResult.mkSuccess (result ++ "\n\n[Showing lines " ++
        toString (offset + 1) ++ "-" ++ toString endIdx ++ " of " ++
        toString totalLines ++ ". Use offset parameter to read more.]")
    else
      ToolResult.mkSuccess result

/-- `ReadFileTool::execute` (read_file.rs lines 85-191): resolve the
workspace and the requested path, canonicalise both, require the
canonical target to extend the canonical workspace, then read.  The
second component lists the canonical paths passed to
`read_to_string`. -/
def readFileExecute (fs : FileSys) (workspaceDir : Option PathSpec)
    (params : ReadFileParams) : ToolResult × List (List String) :=
  let maxLines := params.maxLines.getD 500
  let offset := params.offset.getD 0
  let workspace := workspaceDir.getD fs.cwd
  let fullPath := joinPath workspace params.path
  match fs.canon workspace with
  | none => (ToolResult.mkError "Cannot resolve workspace directory", [])
  | some canonicalWorkspace =>
    match fs.canon fullPath with
    | none => (ToolResult.mkError "Cannot resolve file path", [])
    | some canonicalPath =>
      if ¬ canonicalWorkspace.isPrefixOf canonicalPath then
        (ToolResult.mkError ("Access denied: path '" ++ pathText params.path ++
          "' is outside the workspace directory"), [])
      else if ¬ fs.pathExists canonicalPath then
        (ToolResult.mkError ("File not found: " ++ pathText params.path), [])
      else if ¬ fs.isFile canonicalPath then
        (ToolResult.mkError ("Path is not a file: " ++ pathText params.path), [])
      else
        match fs.readToString canonicalPath with
        | none => (ToolResult.mkError "Failed to read file", [canonicalPath])
        | some content =>
          (formatReadOutput offset maxLines content, [canonicalPath])

/-- Witness input: a root execution task that has accrued its own
metrics. -/
def testRootTask : ExecutionTask :=
  { id := "e1", channelId := 1, taskType := TaskType.execution,
    description := "Processing request", activeForm := none, parent := none,
    metrics := { toolUses := 5, tokensUsed := 50, linesRead := 7,
                 childCount := 1, durationMs := 0 },
    status := TaskStatus.running }

/-- Witness input: a completed child tool task of `testRootTask`. -/
def testChildTask : ExecutionTask :=
  { id := "t1", channelId := 1, taskType := TaskType.toolExecution,
    description := "Using tool: web_search", activeForm := none,
    parent := some "e1",
    metrics := { toolUses := 2, tokensUsed := 20, linesRead := 3,
                 childCount := 0, durationMs := 0 },
    status := TaskStatus.completed }

/-- Witness input: tracker with the root and one child for channel 1. -/
def testTrackerState : TrackerState :=
  { tasks := [("e1", testRootTask), ("t1", testChildTask)],
    channelExecutions := [(1, "e1")] }

/-- Witness inputs for deduplication: ids 1, 2, 3 with importances 9,
1, 5 and identical unit embeddings. -/
def c6MemA : Memory := mkTestMemory 1 MemoryType.longTerm "a" 9 10 (some "u") none

/-- Second dedup witness memory. -/
def c6MemB : Memory := mkTestMemory 2 MemoryType.longTerm "b" 1 20 (some "u") none

/-- Third dedup witness memory. -/
def c6MemC : Memory := mkTestMemory 3 MemoryType.longTerm "c" 5 30 (some "u") none

/-- The loaded (memory, embedding) list of the dedup witness. -/
noncomputable def dedupTestMems : List (Memory × List ℝ) :=
  [(c6MemA, [1]), (c6MemB, [1]), (c6MemC, [1])]

/-- The backing table of the dedup witness. -/
def dedupTestDb : List Memory := [c6MemA, c6MemB, c6MemC]

/-- C1 witness data: a two-element BM25 list (ids 10 and 11). -/
def c1Bm25 : List MemorySearchResult :=
  [{ memory :=
       (mkTestMemory 10 MemoryType.longTerm "m10" 5 0 none none).toResponse,
     rank := -1 },
   { memory :=
       (mkTestMemory 11 MemoryType.longTerm "m11" 5 0 none none).toResponse,
     rank := -2 }]

/-- C1 witness data: a two-element vector list (ids 11 and 12). -/
noncomputable def c1Vec : List (Int × ℝ) := [(11, 1), (12, 1)]

/-- C1 witness data: a total id lookup returning a memory carrying the
requested id. -/
def c1Lookup (id : Int) : Option Memory :=
  some (mkTestMemory id MemoryType.longTerm "m" 5 0 none none)

/-! ## Theorems -/

/-- Membership in a limited, ordered filter query implies the filter
predicate. -/
theorem filter_pred_of_mem_take_sort {p : Memory → Bool}
    {r : Memory → Memory → Prop} [DecidableRel r] {db : List Memory}
    {n : Nat} {m : Memory}
    (hm : m ∈ ((db.filter p).insertionSort r).take n) : p m = true := by
  have h1 : m ∈ (db.filter p).insertionSort r := List.mem_of_mem_take hm
  have h2 : m ∈ db.filter p := (List.mem_insertionSort r).mp h1
  exact (List.mem_filter.mp h2).2

/-- Membership in an ordered filter query implies the filter
predicate. -/
theorem filter_pred_of_mem_sort {p : Memory → Bool}
    {r : Memory → Memory → Prop} [DecidableRel r] {db : List Memory}
    {m : Memory} (hm : m ∈ (db.filter p).insertionSort r) : p m = true :=
  (List.mem_filter.mp ((List.mem_insertionSort r).mp hm)).2

/-- All other active memory reads do exclude superseded rows: FTS
search, daily-log, long-term, entity and temporal listings, the vector
scan, and consolidation loading each return only rows with
`superseded_by IS NULL`. -/
theorem active_reads_exclude_superseded
    (ftsMatch : Memory → Bool) (rank : Memory → ℚ)
    (memoryType : Option MemoryType) (identityId category : Option String)
    (minImportance : Option Int) (lim : Nat) (today now : Int)
    (entityType : String) (entityName iid2 : Option String)
    (memoryTypes : Option (List MemoryType)) (identity3 : String)
    (db : List Memory) (embeddings : List (Int × List ℝ)) :
    (∀ r ∈ searchMemories ftsMatch rank memoryType identityId category
        minImportance lim db, r.memory.supersededBy = none) ∧
    (∀ m ∈ getTodaysDailyLogs today identityId db, m.supersededBy = none) ∧
    (∀ m ∈ getLongTermMemories identityId minImportance now lim db,
        m.supersededBy = none) ∧
    (∀ m ∈ getMemoriesByEntity entityType entityName iid2 lim db,
        m.supersededBy = none) ∧
    (∀ m ∈ getValidMemories identityId memoryTypes now lim db,
        m.supersededBy = none) ∧
    (∀ e ∈ vectorScanRows memoryType identityId db embeddings,
        ∃ m ∈ db, m.id = e.1 ∧ m.supersededBy = none) ∧
    (∀ me ∈ getMemoriesWithEmbeddings identity3 memoryType lim db embeddings,
        me.1.supersededBy = none) := by
  refine ⟨?_, ?_, ?_, ?_, ?_, ?_, ?_⟩
  · intro r hr
    simp only [searchMemories, List.mem_map] at hr
    obtain ⟨m, hm, rfl⟩ := hr
    have hp := filter_pred_of_mem_take_sort hm
    simp only [Bool.and_eq_true, decide_eq_true_eq] at hp
    exact hp.1.1.1.1.2
  · intro m hm
    simp only [getTodaysDailyLogs] at hm
    have hp := filter_pred_of_mem_sort (m := m) hm
    simp only [Bool.and_eq_true, decide_eq_true_eq] at hp
    exact hp.2
  · intro m hm
    have hp := filter_pred_of_mem_take_sort (m := m) hm
    simp only [Bool.and_eq_true, decide_eq_true_eq] at hp
    exact hp.1.1.2
  · intro m hm
    have hp := filter_pred_of_mem_take_sort (m := m) hm
    simp only [Bool.and_eq_true, decide_eq_true_eq] at hp
    exact hp.2
  · intro m hm
    have hp := filter_pred_of_mem_take_sort (m := m) hm
    simp only [Bool.and_eq_true, decide_eq_true_eq] at hp
    exact hp.1.1.1.1
  · intro e he
    have h1 : e ∈ embeddings.filter (fun e => db.any (fun m =>
        decide (m.id = e.1) && decide (m.supersededBy = none) &&
        typeFilter memoryType m && identityFilter identityId m)) :=
      List.mem_of_mem_take he
    have h2 := (List.mem_filter.mp h1).2
    simp only [List.any_eq_true, Bool.and_eq_true, decide_eq_true_eq] at h2
    obtain ⟨m, hmdb, ⟨⟨hid, hsup⟩, _⟩, _⟩ := h2
    exact ⟨m, hmdb, hid, hsup⟩
  · intro me hme
    simp only [getMemoriesWithEmbeddings] at hme
    have h1 := List.mem_of_mem_take hme
    obtain ⟨m, hm, hmap⟩ := List.mem_filterMap.mp h1
    have hp := filter_pred_of_mem_sort hm
    simp only [Bool.and_eq_true, decide_eq_true_eq] at hp
    cases hfind : embeddings.find? (fun e => decide (e.1 = m.id)) with
    | none => rw [hfind] at hmap; exact Option.noConfusion hmap
    | some e =>
      rw [hfind] at hmap
      have heq : (m, e.2) = me := by simpa using hmap
      rw [← heq]
      exact hp.1.2

/-- Claim C3 (code bug): `get_session_summaries` lacks the
`superseded_by IS NULL` condition every other active read carries, so a
superseded session summary still appears in the session-summary
listing (it is also, as the claim says, retrievable by id). -/
theorem c3_session_summary_superseded_leak :
    getSessionSummaries none 10
        [mkTestMemory 1 MemoryType.sessionSummary "old summary" 5 10
          (some "alice") (some 99)] =
      [mkTestMemory 1 MemoryType.sessionSummary "old summary" 5 10
        (some "alice") (some 99)] ∧
    (mkTestMemory 1 MemoryType.sessionSummary "old summary" 5 10
        (some "alice") (some 99)).supersededBy = some 99 ∧
    getMemory 1
        [mkTestMemory 1 MemoryType.sessionSummary "old summary" 5 10
          (some "alice") (some 99)] =
      some (mkTestMemory 1 MemoryType.sessionSummary "old summary" 5 10
        (some "alice") (some 99)) := by
  refine ⟨by decide, by decide, by decide⟩

/-- Exec validation passes exactly when the command is admitted and no
argument contains one of the nine screened characters. -/
theorem validateExecRequest_eq_none_iff (cfg : ExecConfig) (command : String)
    (args : List String) :
    validateExecRequest cfg command (some args) = none ↔
      (isCommandAllowed cfg command = Except.ok () ∧
        ∀ a ∈ args, containsAnyChar a dangerousArgChars = false) := by
  unfold validateExecRequest
  cases hcmd : isCommandAllowed cfg command with
  | error e => simp [hcmd]
  | ok u =>
    unfold validateExecArgs
    cases hfind : args.find? (fun a => containsAnyChar a dangerousArgChars) with
    | some x =>
      simp only [hfind, reduceCtorEq, false_iff, not_and]
      intro _ hall
      have hx := List.find?_some hfind
      have hmem := List.mem_of_find?_eq_some hfind
      rw [hall x hmem] at hx
      exact Bool.noConfusion hx
    | none =>
      simp only [hfind]
      constructor
      · intro _
        refine ⟨trivial, ?_⟩
        intro a ha
        have := List.find?_eq_none.mp hfind a ha
        cases hval : containsAnyChar a dangerousArgChars with
        | false => rfl
        | true => exact absurd hval this
      · intro _
        trivial

/-- Claim C2 counterexample: under the default configuration the command
`echo` with the single argument `hello!` passes validation and is handed
to the spawned process, although the argument contains `!`, one of the
thirteen metacharacters the claim says are always rejected (the argument
check of exec.rs line 236 tests only nine characters, omitting the
braces, `!` and `\`). -/
theorem c2_exec_metachar_counterexample :
    validateExecRequest execToolNew "echo" (some ["hello!"]) = none ∧
    containsAnyChar "hello!" dangerousCommandChars = true := by
  constructor
  · exact (validateExecRequest_eq_none_iff execToolNew "echo" ["hello!"]).mpr
      ⟨by rfl, by decide⟩
  · decide

/-- Claim C2 (amended): under the default configuration (empty allow
list, default deny list), exec validation errors whenever the program's
basename is in the default deny list and whenever the command string
contains one of the thirteen metacharacters; each argument is screened
against the nine-character subset `| ; & $ (backtick) ( ) < >` only, and
whenever validation passes every argument is free of those nine
characters (so no argument containing one of them reaches the spawned
process). -/
theorem c2_exec_validation (command : String) (args : List String) :
    (baseCommand command ∈ defaultDenyList →
      validateExecRequest execToolNew command (some args) ≠ none) ∧
    (containsAnyChar command dangerousCommandChars = true →
      validateExecRequest execToolNew command (some args) ≠ none) ∧
    (∀ a ∈ args, containsAnyChar a dangerousArgChars = true →
      validateExecRequest execToolNew command (some args) ≠ none) ∧
    (validateExecRequest execToolNew command (some args) = none →
      ∀ a ∈ args, containsAnyChar a dangerousArgChars = false) := by
  have hallow : execToolNew.allowList = [] := rfl
  have hnotok : baseCommand command ∈ defaultDenyList ∨
      containsAnyChar command dangerousCommandChars = true →
      isCommandAllowed execToolNew command ≠ Except.ok () := by
    intro hcase
    unfold isCommandAllowed
    rw [hallow]
    simp only [ne_eq, not_true_eq_false, reduceIte]
    by_cases hdeny : execToolNew.denyList.any (fun c => c = baseCommand command) = true
    · simp [hdeny]
    · rw [if_neg hdeny]
      rcases hcase with hmem | hmeta
      · exfalso
        apply hdeny
        simp only [List.any_eq_true, decide_eq_true_eq]
        exact ⟨baseCommand command, hmem, rfl⟩
      · simp [hmeta]
  refine ⟨?_, ?_, ?_, ?_⟩
  · intro hdeny hnone
    exact hnotok (Or.inl hdeny)
      ((validateExecRequest_eq_none_iff _ _ _).mp hnone).1
  · intro hmeta hnone
    exact hnotok (Or.inr hmeta)
      ((validateExecRequest_eq_none_iff _ _ _).mp hnone).1
  · intro a ha hbad hnone
    have := ((validateExecRequest_eq_none_iff _ _ _).mp hnone).2 a ha
    rw [hbad] at this
    exact Bool.noConfusion this
  · intro hnone
    exact ((validateExecRequest_eq_none_iff _ _ _).mp hnone).2

/-- Witness for C2 (amended): the deny-listed basename `rm`, the
metacharacter-bearing command `echo ;id`, and the argument `;` are each
rejected, and the passing request `echo hello` carries no dangerous
argument characters. -/
theorem c2_exec_validation_witness :
    validateExecRequest execToolNew "rm" (some []) ≠ none ∧
    validateExecRequest execToolNew "echo ;id" (some []) ≠ none ∧
    validateExecRequest execToolNew "echo" (some [";"]) ≠ none ∧
    (∀ a ∈ ["hello"], containsAnyChar a dangerousArgChars = false) := by
  refine ⟨?_, ?_, ?_, ?_⟩
  · exact (c2_exec_validation "rm" []).1 (by decide)
  · exact (c2_exec_validation "echo ;id" []).2.1 (by decide)
  · exact (c2_exec_validation "echo" [";"]).2.2.1 ";" (by decide) (by decide)
  · exact (c2_exec_validation "echo" ["hello"]).2.2.2 (by rfl)

/-- Claim C10: with a non-empty allow list, `is_command_allowed` is
decided solely by basename membership in the allow list; the deny list
and the metacharacter screen are never reached. -/
theorem c10_allow_list_sole_authority (cfg : ExecConfig) (command : String)
    (h : cfg.allowList ≠ []) :
    isCommandAllowed cfg command = Except.ok () ↔
      baseCommand command ∈ cfg.allowList := by
  unfold isCommandAllowed
  rw [if_pos h]
  by_cases hmem : cfg.allowList.any (fun c => c = baseCommand command) = true
  · rw [if_pos hmem]
    simp only [List.any_eq_true, decide_eq_true_eq] at hmem
    obtain ⟨c, hc, rfl⟩ := hmem
    simp [hc]
  · rw [if_neg hmem]
    simp only [List.any_eq_true, decide_eq_true_eq, not_exists, not_and] at hmem
    constructor
    · intro he; exact absurd he (by simp)
    · intro hin; exact absurd rfl (hmem _ hin)

/-- Witness for C10: with allow list `[git]` and deny list `[git]`, the
command `git ;x` - whose basename `git` is both allow- and deny-listed
and whose text contains the metacharacter `;` - is accepted. -/
theorem c10_allow_list_sole_authority_witness :
    (ExecConfig.mk ["git"] ["git"] 60).allowList ≠ [] ∧
    isCommandAllowed (ExecConfig.mk ["git"] ["git"] 60) "git ;x" = Except.ok () ∧
    baseCommand "git ;x" ∈ (ExecConfig.mk ["git"] ["git"] 60).denyList ∧
    containsAnyChar "git ;x" dangerousCommandChars = true := by
  refine ⟨by decide, ?_, by decide, by decide⟩
  exact (c10_allow_list_sole_authority (ExecConfig.mk ["git"] ["git"] 60)
    "git ;x" (by decide)).mpr (by decide)

/-- Folding `supersede_memory` over a cluster marks exactly the rows
whose id occurs in the cluster. -/
theorem supersede_foldl_eq (cid now : Int) (cluster : List Memory) :
    ∀ db : List Memory,
      cluster.foldl (fun acc m => supersedeMemory m.id cid now acc) db =
        db.map (fun m =>
          if cluster.any (fun cm => cm.id = m.id) then
            applySupersession cid now m
          else m) := by
  induction cluster with
  | nil =>
    intro db
    simp
  | cons c cs ih =>
    intro db
    rw [List.foldl_cons, ih (supersedeMemory c.id cid now db)]
    unfold supersedeMemory
    rw [List.map_map]
    apply List.map_congr_left
    intro m _
    by_cases h : m.id = c.id
    · have happ : applySupersession cid now (applySupersession cid now m) =
          applySupersession cid now m := rfl
      have hid : (applySupersession cid now m).id = m.id := rfl
      simp [h, hid, happ]
    · have hc : (decide (c.id = m.id)) = false := by
        simp only [decide_eq_false_iff_not]
        exact fun he => h he.symm
      simp [h, hc]

/-- Claim C5 counterexample: merging two memories with the LLM text
`" X "` creates a memory whose content is the trimmed `"X"`, not the
LLM-produced text itself (consolidation.rs line 164 inserts
`merged_content.trim()`). -/
theorem c5_merge_trim_counterexample :
    ((mergeMemories
        [mkTestMemory 1 MemoryType.longTerm "a" 3 10 (some "alice") none,
         mkTestMemory 2 MemoryType.longTerm "b" 7 20 (some "alice") none]
        " X " "alice" 10 100
        [mkTestMemory 1 MemoryType.longTerm "a" 3 10 (some "alice") none,
         mkTestMemory 2 MemoryType.longTerm "b" 7 20 (some "alice") none]).toOption.map
      (fun r => r.1.content)) = some "X" ∧
    (" X " : String) ≠ "X" := by
  refine ⟨by decide, by decide⟩

/-- Claim C5 (amended): merging a cluster of two or more memories
creates exactly one new memory whose content is the trimmed
LLM-produced merged text, whose importance is the maximum importance
over the cluster, whose `source_type` is `"consolidated"`, and whose
entity fields come from the first cluster member; every cluster
member's row is marked `superseded_by = new id` and every other row is
untouched. -/
theorem c5_merge_memories_spec (first : Memory) (rest : List Memory)
    (mergedContent : String) (identityId : String) (newId now : Int)
    (db : List Memory) (hrest : rest ≠ [])
    (hfreshCl : ∀ m ∈ first :: rest, m.id ≠ newId) :
    ∃ c db2,
      mergeMemories (first :: rest) mergedContent identityId newId now db =
        Except.ok (c, db2) ∧
      c.content = rustTrim mergedContent ∧
      c.sourceType = some "consolidated" ∧
      c.category = some "consolidated" ∧
      c.memoryType = first.memoryType ∧
      c.entityType = first.entityType ∧
      c.entityName = first.entityName ∧
      c.identityId = some identityId ∧
      c.id = newId ∧
      c.supersededBy = none ∧
      (∀ m ∈ first :: rest, m.importance ≤ c.importance) ∧
      (∃ m ∈ first :: rest, c.importance = m.importance) ∧
      db2.length = db.length + 1 ∧
      c ∈ db2 ∧
      (∀ m ∈ db,
        ((∃ cm ∈ first :: rest, cm.id = m.id) →
          applySupersession newId now m ∈ db2) ∧
        ((∀ cm ∈ first :: rest, cm.id ≠ m.id) → m ∈ db2)) := by
  cases rest with
  | nil => exact absurd rfl hrest
  | cons r rs =>
    set cluster := first :: r :: rs with hcluster
    set c := createMemoryExtended newId now first.memoryType
      (rustTrim mergedContent) (some "consolidated") none
      (maxImportance cluster) (some identityId) none none none none none
      first.entityType first.entityName (some 1) (some "consolidated")
      none none none with hc
    have hres : mergeMemories cluster mergedContent identityId newId now db =
        Except.ok (c, cluster.foldl
          (fun acc m => supersedeMemory m.id c.id now acc) (db ++ [c])) := rfl
    have hcid : c.id = newId := rfl
    have hdb2 : cluster.foldl
        (fun acc m => supersedeMemory m.id c.id now acc) (db ++ [c]) =
        (db ++ [c]).map (fun m =>
          if cluster.any (fun cm => cm.id = m.id) then
            applySupersession c.id now m
          else m) := supersede_foldl_eq c.id now cluster (db ++ [c])
    refine ⟨c, _, hres, rfl, rfl, rfl, rfl, rfl, rfl, rfl, hcid, rfl, ?_, ?_,
      ?_, ?_, ?_⟩
    · intro m hm
      have hmem : m.importance ∈ cluster.map (fun m => m.importance) :=
        List.mem_map_of_mem _ hm
      have hne : cluster.map (fun m => m.importance) ≠ [] := by
        simp [hcluster]
      obtain ⟨v, hv⟩ := WithBot.ne_bot_iff_exists.mp
        (List.maximum_ne_bot_of_ne_nil hne)
      have hle := List.le_maximum_of_mem' hmem
      rw [← hv] at hle
      have hmv : m.importance ≤ v := WithBot.coe_le_coe.mp hle
      show m.importance ≤ maxImportance cluster
      unfold maxImportance
      rw [← hv, WithBot.unbot'_coe]
      exact hmv
    · have hne : cluster.map (fun m => m.importance) ≠ [] := by
        simp [hcluster]
      obtain ⟨v, hv⟩ := WithBot.ne_bot_iff_exists.mp
        (List.maximum_ne_bot_of_ne_nil hne)
      have hvmem : v ∈ cluster.map (fun m => m.importance) :=
        List.maximum_mem hv.symm
      obtain ⟨m, hm, hmv⟩ := List.mem_map.mp hvmem
      refine ⟨m, hm, ?_⟩
      show maxImportance cluster = m.importance
      unfold maxImportance
      rw [← hv, WithBot.unbot'_coe, hmv]
    · rw [hdb2]
      simp
    · rw [hdb2]
      have hcmem : c ∈ db ++ [c] := List.mem_append_right _ (by simp)
      have hcond : cluster.any (fun cm => cm.id = c.id) = false := by
        rw [List.any_eq_false]
        intro cm hcm
        simp only [decide_eq_true_eq]
        rw [hcid]
        exact hfreshCl cm hcm
      have hmap := List.mem_map_of_mem (fun m =>
        if cluster.any (fun cm => cm.id = m.id) then
          applySupersession c.id now m
        else m) hcmem
      simpa [hcond] using hmap
    · intro m hm
      rw [hdb2]
      constructor
      · intro hex
        obtain ⟨cm, hcm, hcmid⟩ := hex
        have hcond : cluster.any (fun x => x.id = m.id) = true := by
          rw [List.any_eq_true]
          exact ⟨cm, hcm, by simp [hcmid]⟩
        have hmem : m ∈ db ++ [c] := List.mem_append_left _ hm
        have hmap := List.mem_map_of_mem (fun x =>
          if cluster.any (fun cm => cm.id = x.id) then
            applySupersession c.id now x
          else x) hmem
        simpa [hcond, hcid] using hmap
      · intro hall
        have hcond : cluster.any (fun x => x.id = m.id) = false := by
          rw [List.any_eq_false]
          intro cm hcm
          simp only [decide_eq_true_eq]
          exact hall cm hcm
        have hmem : m ∈ db ++ [c] := List.mem_append_left _ hm
        have hmap := List.mem_map_of_mem (fun x =>
          if cluster.any (fun cm => cm.id = x.id) then
            applySupersession c.id now x
          else x) hmem
        simpa [hcond] using hmap

/-- Witness for C5 (amended): merging the concrete two-element cluster
instantiates the theorem; both hypotheses hold at this input. -/
theorem c5_merge_memories_spec_witness :
    ∃ c db2,
      mergeMemories
        [mkTestMemory 1 MemoryType.longTerm "a" 3 10 (some "alice") none,
         mkTestMemory 2 MemoryType.longTerm "b" 7 20 (some "alice") none]
        " X " "alice" 10 100
        [mkTestMemory 1 MemoryType.longTerm "a" 3 10 (some "alice") none,
         mkTestMemory 2 MemoryType.longTerm "b" 7 20 (some "alice") none] =
        Except.ok (c, db2) ∧
      c.content = rustTrim " X " ∧
      (∀ m ∈ [mkTestMemory 1 MemoryType.longTerm "a" 3 10 (some "alice") none,
         mkTestMemory 2 MemoryType.longTerm "b" 7 20 (some "alice") none],
        m.importance ≤ c.importance) := by
  obtain ⟨c, db2, hres, hcontent, _, _, _, _, _, _, _, _, hdom, _⟩ :=
    c5_merge_memories_spec
      (mkTestMemory 1 MemoryType.longTerm "a" 3 10 (some "alice") none)
      [mkTestMemory 2 MemoryType.longTerm "b" 7 20 (some "alice") none]
      " X " "alice" 10 100
      [mkTestMemory 1 MemoryType.longTerm "a" 3 10 (some "alice") none,
       mkTestMemory 2 MemoryType.longTerm "b" 7 20 (some "alice") none]
      (by decide) (by decide)
  exact ⟨c, db2, hres, hcontent, hdom⟩

/-- Claim C7 counterexample: with a root that accrued `tool_uses = 5`
and one child with `tool_uses = 2`, `complete_execution` emits 7 (the
sum over ALL channel tasks, root included), while the sum over the
root's proper descendants is 2. -/
theorem c7_root_metrics_counterexample :
    ((completeExecution 1 testTrackerState).2.map (fun t => t.toolUses)) =
      some 7 ∧
    descendantSum testTrackerState.tasks "e1" (fun m => m.toolUses) = 2 ∧
    (7 : Nat) ≠ 2 := by
  refine ⟨by decide, by decide, by decide⟩

/-- Claim C7 (amended): at `complete_execution` time the emitted
`tool_uses`, `tokens_used` and `lines_read` each equal the sum of that
metric over every task of the tracker belonging to that channel - the
root execution task itself included - and afterwards all of that
channel's tasks and its execution entry are removed from the
tracker. -/
theorem c7_complete_execution_spec (st : TrackerState) (ch : Int)
    (eid : String) (hexec : assocFind st.channelExecutions ch = some eid) :
    ∃ st' total, completeExecution ch st = (st', some total) ∧
      total.toolUses = ((st.tasks.filter (fun e => e.2.channelId = ch)).map
        (fun e => e.2.metrics.toolUses)).sum ∧
      total.tokensUsed = ((st.tasks.filter (fun e => e.2.channelId = ch)).map
        (fun e => e.2.metrics.tokensUsed)).sum ∧
      total.linesRead = ((st.tasks.filter (fun e => e.2.channelId = ch)).map
        (fun e => e.2.metrics.linesRead)).sum ∧
      (∀ e ∈ st'.tasks, ¬ e.2.channelId = ch) ∧
      assocFind st'.channelExecutions ch = none := by
  unfold completeExecution
  rw [hexec]
  refine ⟨_, _, rfl, rfl, rfl, rfl, ?_, ?_⟩
  · intro e he hch
    have he2 := List.mem_filter.mp he
    have hnotin : ¬ e.1 ∈ (st.tasks.filter
        (fun x => decide (x.2.channelId = ch))).map (fun x => x.1) := by
      simpa using he2.2
    obtain ⟨e0, he0, heq⟩ := List.mem_map.mp he2.1
    have hid : e.1 = e0.1 := by
      rw [← heq]
      by_cases h : e0.1 = eid <;> simp [h]
    have hchan : e.2.channelId = e0.2.channelId := by
      rw [← heq]
      by_cases h : e0.1 = eid <;> simp [h, completeTask]
    apply hnotin
    rw [hid]
    apply List.mem_map_of_mem
    apply List.mem_filter.mpr
    refine ⟨he0, ?_⟩
    simp only [decide_eq_true_eq]
    rw [← hchan]
    exact hch
  · have hfind : (st.channelExecutions.filter
        (fun e => decide (¬ e.1 = ch))).find? (fun e => decide (e.1 = ch)) =
        none := by
      rw [List.find?_eq_none]
      intro x hx
      have hne := (List.mem_filter.mp hx).2
      simp only [decide_eq_true_eq] at hne ⊢
      simpa using hne
    simp [assocFind, hfind]

/-- Witness for C7 (amended): instantiating at the concrete two-task
tracker discharges the lookup hypothesis and exhibits the emitted sum
7 = 5 + 2. -/
theorem c7_complete_execution_spec_witness :
    ∃ st' total, completeExecution 1 testTrackerState = (st', some total) ∧
      total.toolUses = ((testTrackerState.tasks.filter
        (fun e => e.2.channelId = 1)).map
        (fun e => e.2.metrics.toolUses)).sum ∧
      total.tokensUsed = ((testTrackerState.tasks.filter
        (fun e => e.2.channelId = 1)).map
        (fun e => e.2.metrics.tokensUsed)).sum ∧
      total.linesRead = ((testTrackerState.tasks.filter
        (fun e => e.2.channelId = 1)).map
        (fun e => e.2.metrics.linesRead)).sum ∧
      (∀ e ∈ st'.tasks, ¬ e.2.channelId = 1) ∧
      assocFind st'.channelExecutions 1 = none :=
  c7_complete_execution_spec testTrackerState 1 "e1" (by decide)

/-- A fold of empty strings onto an accumulator returns the
accumulator. -/
theorem foldl_append_all_empty (l : List String) (hall : ∀ s ∈ l, s = "") :
    ∀ acc : String, l.foldl (fun a s => a ++ s) acc = acc := by
  induction l with
  | nil => intro acc; rfl
  | cons s rest ih =>
    intro acc
    rw [List.foldl_cons, hall s (List.mem_cons_self s rest),
      String.append_empty]
    exact ih (fun x hx => hall x (List.mem_cons_of_mem s hx)) acc

/-- The tool-path block fold is the identity on blocks with neither
non-empty text nor `tool_use`. -/
theorem claude_fold_const {α : Type} (content : List (ClaudeResponseContent α))
    (htext : ∀ c ∈ content, c.contentType = "text" →
      c.text = none ∨ c.text = some "")
    (htool : ∀ c ∈ content, c.contentType ≠ "tool_use") :
    ∀ acc : String × List (ToolCall α),
      content.foldl claudeCollectStep acc = acc := by
  induction content with
  | nil => intro acc; rfl
  | cons c rest ih =>
    intro acc
    have hstep : claudeCollectStep acc c = acc := by
      unfold claudeCollectStep
      by_cases hct : c.contentType = "text"
      · rw [if_pos hct]
        rcases htext c (List.mem_cons_self c rest) hct with h | h
        · rw [h]
        · rw [h]
          show (acc.1 ++ "", acc.2) = acc
          rw [String.append_empty]
      · rw [if_neg hct,
          if_neg (htool c (List.mem_cons_self c rest))]
    rw [List.foldl_cons, hstep]
    exact ih (fun x hx => htext x (List.mem_cons_of_mem c hx))
      (fun x hx => htool x (List.mem_cons_of_mem c hx)) acc

/-- Claim C8 counterexample: a successfully parsed response with no
content blocks at all makes the text path fail with the `Empty` error
but makes the tool path return a success with empty content and an
empty tool-call list (claude.rs lines 295-299 have no emptiness
check). -/
theorem c8_tool_path_empty_counterexample :
    generateWithToolsCore ([] : List (ClaudeResponseContent Unit))
        (some "end_turn") =
      Except.ok { content := "", toolCalls := [],
                  stopReason := some "end_turn" } ∧
    generateTextCore ([] : List (ClaudeResponseContent Unit)) =
      Except.error "Claude API returned no content" := by
  exact ⟨rfl, rfl⟩

/-- Claim C8 (amended): on a parsed response whose blocks contain
neither a non-empty text block nor a `tool_use` block, `generate_text`
fails with the `Empty` provider error, but `generate_with_tools`
returns a success reply with empty content and an empty tool-call
list - the tool-enabled path has no emptiness check. -/
theorem c8_empty_response_spec {α : Type}
    (content : List (ClaudeResponseContent α)) (sr : Option String)
    (htext : ∀ c ∈ content, c.contentType = "text" →
      c.text = none ∨ c.text = some "")
    (htool : ∀ c ∈ content, c.contentType ≠ "tool_use") :
    generateTextCore content = Except.error "Claude API returned no content" ∧
    generateWithToolsCore content sr =
      Except.ok { content := "", toolCalls := [], stopReason := sr } := by
  have hcontent : generateTextContent content = "" := by
    unfold generateTextContent concatStrings
    apply foldl_append_all_empty
    intro s hs
    obtain ⟨c, hc, hcs⟩ := List.mem_filterMap.mp hs
    have hcmem := List.mem_filter.mp hc
    have hct : c.contentType = "text" := by
      simpa using hcmem.2
    rcases htext c hcmem.1 hct with h | h
    · rw [h] at hcs; exact Option.noConfusion hcs
    · rw [h] at hcs; exact (Option.some.inj hcs).symm
  constructor
  · unfold generateTextCore
    rw [hcontent]
    rfl
  · unfold generateWithToolsCore
    rw [claude_fold_const content htext htool ("", [])]

/-- Witness for C8 (amended): a single empty text block; both
hypotheses are discharged by evaluation. -/
theorem c8_empty_response_spec_witness :
    generateTextCore
        [ClaudeResponseContent.mk (α := Unit) "text" (some "") none none none] =
      Except.error "Claude API returned no content" ∧
    generateWithToolsCore
        [ClaudeResponseContent.mk (α := Unit) "text" (some "") none none none]
        none =
      Except.ok { content := "", toolCalls := [], stopReason := none } :=
  c8_empty_response_spec
    [ClaudeResponseContent.mk (α := Unit) "text" (some "") none none none]
    none (by decide) (by decide)

/-- Claim C4: `read_file` reads only canonical paths that extend the
canonical workspace root, and whenever the canonical target does not
extend the canonical root it returns the access-denied error having
read nothing. -/
theorem c4_read_file_sandbox (fs : FileSys) (workspaceDir : Option PathSpec)
    (params : ReadFileParams) :
    (∀ p ∈ (readFileExecute fs workspaceDir params).2,
      ∃ cw, fs.canon (workspaceDir.getD fs.cwd) = some cw ∧
        fs.canon (joinPath (workspaceDir.getD fs.cwd) params.path) = some p ∧
        cw.isPrefixOf p = true) ∧
    (∀ cw cp, fs.canon (workspaceDir.getD fs.cwd) = some cw →
      fs.canon (joinPath (workspaceDir.getD fs.cwd) params.path) = some cp →
      cw.isPrefixOf cp = false →
      readFileExecute fs workspaceDir params =
        (ToolResult.mkError ("Access denied: path '" ++ pathText params.path ++
          "' is outside the workspace directory"), [])) := by
  constructor
  · intro p hp
    simp only [readFileExecute] at hp
    cases hw : fs.canon (workspaceDir.getD fs.cwd) with
    | none => simp only [hw] at hp; simp at hp
    | some cw =>
      simp only [hw] at hp
      cases hc : fs.canon (joinPath (workspaceDir.getD fs.cwd) params.path) with
      | none => simp only [hc] at hp; simp at hp
      | some cp =>
        simp only [hc] at hp
        by_cases hpre : cw.isPrefixOf cp = true
        · rw [if_neg (by simp [hpre])] at hp
          by_cases hex : fs.pathExists cp = true
          · rw [if_neg (by simp [hex])] at hp
            by_cases hfile : fs.isFile cp = true
            · rw [if_neg (by simp [hfile])] at hp
              cases hr : fs.readToString cp with
              | none =>
                simp only [hr, List.mem_singleton] at hp
                subst hp
                exact ⟨cw, rfl, rfl, hpre⟩
              | some content =>
                simp only [hr, List.mem_singleton] at hp
                subst hp
                exact ⟨cw, rfl, rfl, hpre⟩
            · rw [if_pos (by simp [hfile])] at hp
              simp at hp
          · rw [if_pos (by simp [hex])] at hp
            simp at hp
        · rw [if_pos (by simp [hpre])] at hp
          simp at hp
  · intro cw cp hw hc hpre
    simp only [readFileExecute, hw, hc]
    rw [if_pos (by simp [hpre])]

/-- Witness for C4: with an identity canonicaliser, workspace `/ws`
and the absolute request `/etc/passwd`, the tool denies access and
reads nothing. -/
theorem c4_read_file_sandbox_witness :
    readFileExecute
      { canon := fun p => some p.components,
        pathExists := fun _ => true,
        isFile := fun _ => true,
        readToString := fun _ => some "secret",
        cwd := { absolute := true, components := [] } }
      (some { absolute := true, components := ["ws"] })
      { path := { absolute := true, components := ["etc", "passwd"] },
        maxLines := none, offset := none } =
      (ToolResult.mkError
        "Access denied: path 'etc/passwd' is outside the workspace directory",
        []) := by
  have h := (c4_read_file_sandbox
    { canon := fun p => some p.components,
      pathExists := fun _ => true,
      isFile := fun _ => true,
      readToString := fun _ => some "secret",
      cwd := { absolute := true, components := [] } }
    (some { absolute := true, components := ["ws"] })
    { path := { absolute := true, components := ["etc", "passwd"] },
      maxLines := none, offset := none }).2
    ["ws"] ["etc", "passwd"] rfl rfl (by decide)
  simpa using h

/-- `listDot` is symmetric. -/
theorem listDot_comm (a b : List ℝ) : listDot a b = listDot b a := by
  unfold listDot
  rw [List.zipWith_comm_of_comm _ mul_comm a b]

/-- The dot product of a vector with itself is its sum of squares. -/
theorem listDot_self (a : List ℝ) : listDot a a = sumSquares a := by
  induction a with
  | nil => rfl
  | cons x xs ih =>
    unfold listDot sumSquares at ih ⊢
    simp only [List.zipWith_cons_cons, List.map_cons, List.sum_cons, ih]
    ring_nf

/-- A sum of squares is nonnegative. -/
theorem sumSquares_nonneg (a : List ℝ) : 0 ≤ sumSquares a := by
  apply List.sum_nonneg
  intro x hx
  obtain ⟨y, _, rfl⟩ := List.mem_map.mp hx
  positivity

/-- `listDot` as a `Finset.range` sum (for equal lengths). -/
theorem listDot_eq_sum_range (a : List ℝ) :
    ∀ b : List ℝ, a.length = b.length →
      listDot a b = ∑ i ∈ Finset.range a.length, a.getD i 0 * b.getD i 0 := by
  induction a with
  | nil => intro b _; simp [listDot]
  | cons x xs ih =>
    intro b hb
    cases b with
    | nil => exact absurd hb (by simp)
    | cons y ys =>
      have hlen : xs.length = ys.length := by simpa using hb
      unfold listDot at ih ⊢
      simp only [List.zipWith_cons_cons, List.sum_cons, List.length_cons]
      rw [Finset.sum_range_succ']
      simp only [List.getD_cons_succ, List.getD_cons_zero]
      rw [← ih ys hlen]
      ring

/-- `sumSquares` as a `Finset.range` sum. -/
theorem sumSquares_eq_sum_range (a : List ℝ) :
    sumSquares a = ∑ i ∈ Finset.range a.length, a.getD i 0 ^ 2 := by
  induction a with
  | nil => simp [sumSquares]
  | cons x xs ih =>
    unfold sumSquares at ih ⊢
    simp only [List.map_cons, List.sum_cons, List.length_cons]
    rw [Finset.sum_range_succ']
    simp only [List.getD_cons_succ, List.getD_cons_zero]
    rw [← ih]
    ring

/-- Cauchy-Schwarz for equal-length real lists. -/
theorem listDot_sq_le (a b : List ℝ) (h : a.length = b.length) :
    listDot a b ^ 2 ≤ sumSquares a * sumSquares b := by
  rw [listDot_eq_sum_range a b h, sumSquares_eq_sum_range a,
    sumSquares_eq_sum_range b, h]
  exact Finset.sum_mul_sq_le_sq_mul_sq (Finset.range b.length)
    (fun i => a.getD i 0) (fun i => b.getD i 0)

/-- Cosine similarity is symmetric. -/
theorem cosineSimilarity_comm (a b : List ℝ) :
    cosineSimilarity a b = cosineSimilarity b a := by
  unfold cosineSimilarity
  have hcond : (a.length ≠ b.length ∨ a = []) ↔
      (b.length ≠ a.length ∨ b = []) := by
    rw [← List.length_eq_zero (l := a), ← List.length_eq_zero (l := b)]
    omega
  by_cases h1 : a.length ≠ b.length ∨ a = []
  · rw [if_pos h1, if_pos (hcond.mp h1)]
  · rw [if_neg h1, if_neg (fun h2 => h1 (hcond.mpr h2))]
    rw [listDot_comm, mul_comm (Real.sqrt (sumSquares a))
      (Real.sqrt (sumSquares b))]
    exact if_congr or_comm rfl rfl

/-- Claim C9: cosine similarity is symmetric, lies in `[-1, 1]`, equals
1 on identical non-zero vectors, and equals 0 on unequal lengths, empty
inputs or a zero norm (real-number idealisation of the `f32`/`f64`
code). -/
theorem c9_cosine_similarity_props :
    (∀ a b : List ℝ, cosineSimilarity a b = cosineSimilarity b a) ∧
    (∀ a b : List ℝ, -1 ≤ cosineSimilarity a b ∧ cosineSimilarity a b ≤ 1) ∧
    (∀ a : List ℝ, a ≠ [] → (∃ x ∈ a, x ≠ 0) → cosineSimilarity a a = 1) ∧
    (∀ a b : List ℝ, a.length ≠ b.length → cosineSimilarity a b = 0) ∧
    (∀ b : List ℝ, cosineSimilarity [] b = 0) ∧
    (∀ a b : List ℝ, Real.sqrt (sumSquares a) = 0 ∨
      Real.sqrt (sumSquares b) = 0 → cosineSimilarity a b = 0) := by
  have hzero : ∀ a b : List ℝ, Real.sqrt (sumSquares a) = 0 ∨
      Real.sqrt (sumSquares b) = 0 → cosineSimilarity a b = 0 := by
    intro a b h
    unfold cosineSimilarity
    by_cases h1 : a.length ≠ b.length ∨ a = []
    · rw [if_pos h1]
    · rw [if_neg h1, if_pos h]
  refine ⟨cosineSimilarity_comm, ?_, ?_, ?_, ?_, hzero⟩
  · intro a b
    unfold cosineSimilarity
    by_cases h1 : a.length ≠ b.length ∨ a = []
    · rw [if_pos h1]; norm_num
    · rw [if_neg h1]
      by_cases h2 : Real.sqrt (sumSquares a) = 0 ∨ Real.sqrt (sumSquares b) = 0
      · rw [if_pos h2]; norm_num
      · rw [if_neg h2]
        push_neg at h1 h2
        have hlen : a.length = b.length := by
          by_contra hne
          exact hne h1.1
        have hna : 0 < Real.sqrt (sumSquares a) :=
          lt_of_le_of_ne (Real.sqrt_nonneg _) (Ne.symm h2.1)
        have hnb : 0 < Real.sqrt (sumSquares b) :=
          lt_of_le_of_ne (Real.sqrt_nonneg _) (Ne.symm h2.2)
        have hprod : 0 < Real.sqrt (sumSquares a) * Real.sqrt (sumSquares b) :=
          mul_pos hna hnb
        have habs : |listDot a b| ≤
            Real.sqrt (sumSquares a) * Real.sqrt (sumSquares b) := by
          rw [← Real.sqrt_sq_eq_abs, ← Real.sqrt_mul (sumSquares_nonneg a)]
          exact Real.sqrt_le_sqrt (listDot_sq_le a b hlen)
        rw [abs_le] at habs
        constructor
        · rw [neg_le, ← neg_div]
          apply div_le_one_of_le₀ _ hprod.le
          linarith [habs.1]
        · apply div_le_one_of_le₀ habs.2 hprod.le
  · intro a hne hex
    unfold cosineSimilarity
    have h1 : ¬(a.length ≠ a.length ∨ a = []) := by
      push_neg
      exact ⟨rfl, hne⟩
    rw [if_neg h1]
    obtain ⟨x, hx, hx0⟩ := hex
    have hpos : 0 < sumSquares a := by
      have hle : x ^ 2 ≤ sumSquares a := by
        apply List.single_le_sum
        · intro y hy
          obtain ⟨z, _, rfl⟩ := List.mem_map.mp hy
          positivity
        · exact List.mem_map_of_mem _ hx
      have : (0:ℝ) < x ^ 2 := by positivity
      linarith
    have hs : 0 < Real.sqrt (sumSquares a) := Real.sqrt_pos.mpr hpos
    rw [if_neg (by push_neg; exact ⟨ne_of_gt hs, ne_of_gt hs⟩)]
    rw [listDot_self, Real.mul_self_sqrt hpos.le]
    exact div_self (ne_of_gt hpos)
  · intro a b hlen
    unfold cosineSimilarity
    rw [if_pos (Or.inl hlen)]
  · intro b
    unfold cosineSimilarity
    by_cases h1 : ([] : List ℝ).length ≠ b.length
    · rw [if_pos (Or.inl h1)]
    · rw [if_pos (Or.inr rfl)]

/-- Witness for C9: the theorem instantiated at `[3, 4]` - symmetry
with `[1, 2]`, membership of the similarity in `[-1, 1]`, value 1 on
the pair `([3,4], [3,4])`, and the degenerate zeros. -/
theorem c9_cosine_similarity_props_witness :
    cosineSimilarity [(3:ℝ), 4] [1, 2] = cosineSimilarity [1, 2] [3, 4] ∧
    (-1 ≤ cosineSimilarity [(3:ℝ), 4] [1, 2] ∧
      cosineSimilarity [(3:ℝ), 4] [1, 2] ≤ 1) ∧
    cosineSimilarity [(3:ℝ), 4] [3, 4] = 1 ∧
    cosineSimilarity [(3:ℝ), 4] [1] = 0 ∧
    cosineSimilarity ([] : List ℝ) [] = 0 ∧
    cosineSimilarity [(0:ℝ)] [1] = 0 :=
  ⟨c9_cosine_similarity_props.1 [3, 4] [1, 2],
   c9_cosine_similarity_props.2.1 [3, 4] [1, 2],
   c9_cosine_similarity_props.2.2.1 [3, 4] (by simp)
     ⟨3, by simp, by norm_num⟩,
   c9_cosine_similarity_props.2.2.2.1 [3, 4] [1] (by simp),
   c9_cosine_similarity_props.2.2.2.2.1 [],
   c9_cosine_similarity_props.2.2.2.2.2 [0] [1]
     (Or.inl (by simp [sumSquares]))⟩

/-- Cosine similarity of the unit 1-vectors is 1. -/
theorem cosineSimilarity_single_one : cosineSimilarity [(1:ℝ)] [1] = 1 := by
  have h1 : sumSquares [(1:ℝ)] = 1 := by simp [sumSquares]
  unfold cosineSimilarity
  rw [if_neg (by simp)]
  rw [h1, Real.sqrt_one]
  rw [if_neg (by norm_num)]
  simp [listDot]

/-- The keep/remove pick returns the two inputs in some order, the
keeper having strictly greater importance or, on a tie, the keep/remove
order respecting `created_at`. -/
theorem pickKeepRemove_spec (a b : Memory) :
    (((pickKeepRemove a b).1 = a ∧ (pickKeepRemove a b).2 = b) ∨
     ((pickKeepRemove a b).1 = b ∧ (pickKeepRemove a b).2 = a)) ∧
    ((pickKeepRemove a b).2.importance < (pickKeepRemove a b).1.importance ∨
     ((pickKeepRemove a b).1.importance = (pickKeepRemove a b).2.importance ∧
      (pickKeepRemove a b).1.createdAt ≤ (pickKeepRemove a b).2.createdAt)) := by
  unfold pickKeepRemove
  split_ifs with h1 h2 h3
  · exact ⟨Or.inl ⟨rfl, rfl⟩, Or.inl h1⟩
  · exact ⟨Or.inr ⟨rfl, rfl⟩, Or.inl h2⟩
  · refine ⟨Or.inl ⟨rfl, rfl⟩, Or.inr ⟨?_, ?_⟩⟩
    · show a.importance = b.importance
      omega
    · exact h3
  · refine ⟨Or.inr ⟨rfl, rfl⟩, Or.inr ⟨?_, ?_⟩⟩
    · show b.importance = a.importance
      omega
    · show b.createdAt ≤ a.createdAt
      omega

/-- Every pair recorded by the inner dedup scan either was already
recorded or pairs `a` with some later memory above threshold, in
keep/remove order. -/
theorem dedupScanInner_pairs (a : Memory × List ℝ) :
    ∀ (rest : List (Memory × List ℝ)) (toRemove : List Int)
      (dups : List (Int × Int × ℝ)) (p : Int × Int × ℝ),
      p ∈ (dedupScanInner a rest toRemove dups).2 →
      p ∈ dups ∨ ∃ b ∈ rest,
        (0.95 : ℝ) ≤ cosineSimilarity a.2 b.2 ∧
        p = ((pickKeepRemove a.1 b.1).1.id, (pickKeepRemove a.1 b.1).2.id,
             cosineSimilarity a.2 b.2) := by
  intro rest
  induction rest with
  | nil =>
    intro toRemove dups p hp
    simp only [dedupScanInner] at hp
    exact Or.inl hp
  | cons b rest ih =>
    intro toRemove dups p hp
    simp only [dedupScanInner] at hp
    by_cases hmem : b.1.id ∈ toRemove
    · rw [if_pos hmem] at hp
      rcases ih _ _ _ hp with h | hb
      · exact Or.inl h
      · obtain ⟨b', hb', hs', hp'⟩ := hb
        exact Or.inr ⟨b', List.mem_cons_of_mem b hb', hs', hp'⟩
    · rw [if_neg hmem] at hp
      by_cases hsim : (0.95 : ℝ) ≤ cosineSimilarity a.2 b.2
      · rw [if_pos hsim] at hp
        rcases ih _ _ _ hp with h | hb
        · rcases List.mem_append.mp h with h2 | h2
          · exact Or.inl h2
          · refine Or.inr ⟨b, List.mem_cons_self b rest, hsim, ?_⟩
            simpa using h2
        · obtain ⟨b', hb', hs', hp'⟩ := hb
          exact Or.inr ⟨b', List.mem_cons_of_mem b hb', hs', hp'⟩
      · rw [if_neg hsim] at hp
        rcases ih _ _ _ hp with h | hb
        · exact Or.inl h
        · obtain ⟨b', hb', hs', hp'⟩ := hb
          exact Or.inr ⟨b', List.mem_cons_of_mem b hb', hs', hp'⟩

/-- Every pair recorded by the outer dedup scan either was already
recorded or pairs two loaded memories above threshold, in keep/remove
order. -/
theorem dedupScanOuter_pairs :
    ∀ (l : List (Memory × List ℝ)) (toRemove : List Int)
      (dups : List (Int × Int × ℝ)) (p : Int × Int × ℝ),
      p ∈ (dedupScanOuter l toRemove dups).2 →
      p ∈ dups ∨ ∃ a ∈ l, ∃ b ∈ l,
        (0.95 : ℝ) ≤ cosineSimilarity a.2 b.2 ∧
        p = ((pickKeepRemove a.1 b.1).1.id, (pickKeepRemove a.1 b.1).2.id,
             cosineSimilarity a.2 b.2) := by
  intro l
  induction l with
  | nil =>
    intro toRemove dups p hp
    simp only [dedupScanOuter] at hp
    exact Or.inl hp
  | cons a rest ih =>
    intro toRemove dups p hp
    simp only [dedupScanOuter] at hp
    by_cases hmem : a.1.id ∈ toRemove
    · rw [if_pos hmem] at hp
      rcases ih _ _ _ hp with h | hb
      · exact Or.inl h
      · obtain ⟨a', ha', b', hb', hs', hp'⟩ := hb
        exact Or.inr ⟨a', List.mem_cons_of_mem a ha', b',
          List.mem_cons_of_mem a hb', hs', hp'⟩
    · rw [if_neg hmem] at hp
      rcases ih _ _ _ hp with h | hb
      · rcases dedupScanInner_pairs a rest toRemove dups p h with h2 | hb2
        · exact Or.inl h2
        · obtain ⟨b, hb, hs, hpe⟩ := hb2
          exact Or.inr ⟨a, List.mem_cons_self a rest, b,
            List.mem_cons_of_mem a hb, hs, hpe⟩
      · obtain ⟨a', ha', b', hb', hs', hp'⟩ := hb
        exact Or.inr ⟨a', List.mem_cons_of_mem a ha', b',
          List.mem_cons_of_mem a hb', hs', hp'⟩

/-- Rows after the supersession writes: each row descends from a row of
the original table with the same id, either untouched or superseded by
the keeper of one of its recorded pairs. -/
theorem dedup_writes (now : Int) :
    ∀ (ps : List (Int × Int × ℝ)) (db : List Memory) (m : Memory),
      m ∈ ps.foldl (fun acc p => supersedeMemory p.2.1 p.1 now acc) db →
      ∃ m0 ∈ db, m0.id = m.id ∧
        (m = m0 ∨ ∃ p ∈ ps, p.2.1 = m.id ∧ m.supersededBy = some p.1) := by
  intro ps
  induction ps with
  | nil =>
    intro db m hm
    exact ⟨m, hm, rfl, Or.inl rfl⟩
  | cons p ps ih =>
    intro db m hm
    rw [List.foldl_cons] at hm
    obtain ⟨m1, hm1, hid1, hdisj⟩ := ih _ _ hm
    unfold supersedeMemory at hm1
    obtain ⟨m0, hm0, heq⟩ := List.mem_map.mp hm1
    by_cases h : m0.id = p.2.1
    · rw [if_pos h] at heq
      have hid0 : m0.id = m.id := by
        rw [← hid1, ← heq]
        rfl
      refine ⟨m0, hm0, hid0, ?_⟩
      rcases hdisj with rfl | hq
      · right
        refine ⟨p, List.mem_cons_self p ps, ?_, ?_⟩
        · rw [← hid0]
          exact h.symm
        · rw [← heq]
          rfl
      · obtain ⟨q, hq1, hq2, hq3⟩ := hq
        exact Or.inr ⟨q, List.mem_cons_of_mem p hq1, hq2, hq3⟩
    · rw [if_neg h] at heq
      refine ⟨m0, hm0, by rw [heq]; exact hid1, ?_⟩
      rcases hdisj with rfl | hq
      · exact Or.inl heq.symm
      · obtain ⟨q, hq1, hq2, hq3⟩ := hq
        exact Or.inr ⟨q, List.mem_cons_of_mem p hq1, hq2, hq3⟩

/-- Evaluation of the dedup scan on the three-memory witness: the
greedy scan pairs memory 1 with 2 and with 3, and never pairs 2 with
3. -/
theorem dedupTest_eval :
    dedupScanOuter dedupTestMems [] [] =
      ([3, 2], [(1, 2, (1:ℝ)), (1, 3, 1)]) := by
  have hsim : cosineSimilarity [(1:ℝ)] [1] = 1 := cosineSimilarity_single_one
  have hge : (0.95 : ℝ) ≤ 1 := by norm_num
  simp [dedupTestMems, dedupScanOuter, dedupScanInner, hsim, hge,
    pickKeepRemove, c6MemA, c6MemB, c6MemC, mkTestMemory]

/-- Claim C6 counterexample: memories 1 (importance 9), 2 (importance
1), 3 (importance 5), pairwise similarity 1 ≥ 0.95.  The pair (2, 3) is
above threshold and its higher-importance member is 3, yet memory 2 is
superseded by 1, not by 3 - the greedy scan never processes a pair
whose member is already marked for removal. -/
theorem c6_greedy_pair_counterexample :
    (0.95 : ℝ) ≤ cosineSimilarity [(1:ℝ)] [1] ∧
    c6MemB.importance < c6MemC.importance ∧
    (deduplicate dedupTestMems false 100 dedupTestDb).1.pairs =
      [(1, 2, (1:ℝ)), (1, 3, 1)] ∧
    ((deduplicate dedupTestMems false 100 dedupTestDb).2.map
      (fun m => (m.id, m.supersededBy))) =
      [(1, none), (2, some 1), (3, some 1)] := by
  refine ⟨?_, by decide, ?_, ?_⟩
  · rw [cosineSimilarity_single_one]
    norm_num
  · simp only [deduplicate, dedupTest_eval]
  · simp only [deduplicate, dedupTest_eval, Bool.false_eq_true, if_false]
    decide

/-- Claim C6 (amended): deduplication examines pairs greedily in load
order, skipping any pair with a member already marked for removal; each
recorded pair consists of two loaded memories with similarity ≥ 0.95,
ordered keeper first where the keeper has strictly greater importance
or, on equal importance, the keep/remove order follows `created_at`
(earlier-indexed memory kept on an exact tie); with `dry_run = true`
the pair list is returned and no row is mutated; with `dry_run = false`
every row of the resulting table is either an untouched original or an
original superseded by the keeper of one of its recorded pairs. -/
theorem c6_deduplicate_spec (memories : List (Memory × List ℝ))
    (dryRun : Bool) (now : Int) (db : List Memory) :
    ((deduplicate memories dryRun now db).1.duplicatesFound =
      (deduplicate memories dryRun now db).1.pairs.length) ∧
    (dryRun = true → (deduplicate memories dryRun now db).2 = db ∧
      (deduplicate memories dryRun now db).1.duplicatesRemoved = 0) ∧
    (∀ p ∈ (deduplicate memories dryRun now db).1.pairs,
      ∃ a ∈ memories, ∃ b ∈ memories,
        (0.95 : ℝ) ≤ cosineSimilarity a.2 b.2 ∧
        p.2.2 = cosineSimilarity a.2 b.2 ∧
        p.1 = a.1.id ∧ p.2.1 = b.1.id ∧
        (b.1.importance < a.1.importance ∨
          (a.1.importance = b.1.importance ∧
            a.1.createdAt ≤ b.1.createdAt))) ∧
    (dryRun = false → ∀ m ∈ (deduplicate memories dryRun now db).2,
      ∃ m0 ∈ db, m0.id = m.id ∧
        (m = m0 ∨ ∃ p ∈ (deduplicate memories dryRun now db).1.pairs,
          p.2.1 = m.id ∧ m.supersededBy = some p.1)) := by
  refine ⟨rfl, ?_, ?_, ?_⟩
  · intro hdry
    subst hdry
    exact ⟨rfl, rfl⟩
  · intro p hp
    simp only [deduplicate] at hp
    rcases dedupScanOuter_pairs memories [] [] p hp with h | hb
    · exact absurd h (List.not_mem_nil p)
    · obtain ⟨a0, ha0, b0, hb0, hs, hpe⟩ := hb
      rcases (pickKeepRemove_spec a0.1 b0.1).1 with hor | hor
      · refine ⟨a0, ha0, b0, hb0, hs, ?_, ?_, ?_, ?_⟩
        · rw [hpe]
        · rw [hpe]
          show (pickKeepRemove a0.1 b0.1).1.id = a0.1.id
          rw [hor.1]
        · rw [hpe]
          show (pickKeepRemove a0.1 b0.1).2.id = b0.1.id
          rw [hor.2]
        · have hw := (pickKeepRemove_spec a0.1 b0.1).2
          rw [hor.1, hor.2] at hw
          exact hw
      · refine ⟨b0, hb0, a0, ha0, ?_, ?_, ?_, ?_, ?_⟩
        · rw [cosineSimilarity_comm b0.2 a0.2]
          exact hs
        · rw [hpe]
          show cosineSimilarity a0.2 b0.2 = cosineSimilarity b0.2 a0.2
          rw [cosineSimilarity_comm a0.2 b0.2]
        · rw [hpe]
          show (pickKeepRemove a0.1 b0.1).1.id = b0.1.id
          rw [hor.1]
        · rw [hpe]
          show (pickKeepRemove a0.1 b0.1).2.id = a0.1.id
          rw [hor.2]
        · have hw := (pickKeepRemove_spec a0.1 b0.1).2
          rw [hor.1, hor.2] at hw
          exact hw
  · intro hdry m hm
    subst hdry
    simp only [deduplicate, Bool.false_eq_true, if_false] at hm ⊢
    exact dedup_writes now _ db m hm

/-- Updating a key absent from the accumulator appends a fresh cell. -/
theorem updateAssoc_fresh (l : List (Int × RrfAcc)) (key : Int)
    (f : RrfAcc → RrfAcc) (h : ∀ e ∈ l, e.1 ≠ key) :
    updateAssoc l key f = l ++ [(key, f emptyAcc)] := by
  unfold updateAssoc
  rw [if_neg]
  intro hc
  simp only [List.any_eq_true, decide_eq_true_eq] at hc
  obtain ⟨e, he, heq⟩ := hc
  exact h e he heq

/-- The BM25 loop over fresh, mutually distinct keys appends the closed
form. -/
theorem addBm25_eq (l : List MemorySearchResult) :
    ∀ (acc : List (Int × RrfAcc)) (n : Nat),
      (l.map (fun r => r.memory.id)).Nodup →
      (∀ r ∈ l, ∀ e ∈ acc, e.1 ≠ r.memory.id) →
      addBm25 acc n l = acc ++ bm25Entries n l := by
  induction l with
  | nil =>
    intro acc n _ _
    simp [addBm25, bm25Entries]
  | cons r rest ih =>
    intro acc n hnd hfresh
    have hhead : r.memory.id ∉ rest.map (fun x => x.memory.id) :=
      (List.nodup_cons.mp (by simpa using hnd)).1
    have htail : (rest.map (fun x => x.memory.id)).Nodup :=
      (List.nodup_cons.mp (by simpa using hnd)).2
    simp only [addBm25]
    rw [updateAssoc_fresh acc r.memory.id _
      (fun e he => hfresh r (List.mem_cons_self r rest) e he)]
    simp only [emptyAcc, zero_add]
    have hfr : ∀ r' ∈ rest, ∀ e ∈ acc ++ [(r.memory.id,
        ({ score := 1 / (rrfK + (n + 1 : ℚ)), bm25Rank := some ((n : Int) + 1),
           vectorRank := none,
           memory := some (responseToMemory r.memory) } : RrfAcc))],
        e.1 ≠ r'.memory.id := by
      intro r' hr' e he
      rcases List.mem_append.mp he with h2 | h2
      · exact hfresh r' (List.mem_cons_of_mem r hr') e h2
      · have he1 : e.1 = r.memory.id := by
          simp only [List.mem_singleton] at h2
          rw [h2]
        rw [he1]
        intro hcontr
        exact hhead (hcontr ▸ List.mem_map_of_mem (fun x => x.memory.id) hr')
    rw [ih _ (n + 1) htail hfr]
    simp [bm25Entries]

/-- `findIdx?` over the first projections agrees with `findIdx?` on the
pairs. -/
theorem findIdx?_map_fst (vec : List (Int × ℝ)) (key : Int) :
    (vec.map (fun v => v.1)).findIdx? (fun i => i = key) =
      vec.findIdx? (fun v => v.1 = key) := by
  induction vec with
  | nil => rfl
  | cons v rest ih =>
    rw [List.map_cons, List.findIdx?_cons, List.findIdx?_cons]
    by_cases h : v.1 = key
    · simp [h]
    · rw [if_neg (by simpa using h), if_neg (by simpa using h)]
      rw [List.findIdx?_succ, List.findIdx?_succ, ih]

/-- `applyVector` keeps the key. -/
theorem applyVector_fst (n : Nat) (vec : List (Int × ℝ)) (e : Int × RrfAcc) :
    (applyVector n vec e).1 = e.1 := by
  unfold applyVector
  cases vec.findIdx? (fun v => v.1 = e.1) <;> rfl

/-- `applyVector` on a key absent from the vector list is the
identity. -/
theorem applyVector_none (n : Nat) (vec : List (Int × ℝ)) (e : Int × RrfAcc)
    (h : ∀ v ∈ vec, v.1 ≠ e.1) : applyVector n vec e = e := by
  unfold applyVector
  rw [List.findIdx?_eq_none_iff.mpr (fun v hv => by simp [h v hv])]

/-- `applyVector` over a cons whose head misses the key steps the
offset. -/
theorem applyVector_cons_ne (n : Nat) (v : Int × ℝ) (rest : List (Int × ℝ))
    (e : Int × RrfAcc) (h : e.1 ≠ v.1) :
    applyVector n (v :: rest) e = applyVector (n + 1) rest e := by
  unfold applyVector
  rw [List.findIdx?_cons, if_neg (by simp; exact fun hc => h hc.symm),
    List.findIdx?_succ]
  cases hj : rest.findIdx? (fun v' => v'.1 = e.1) with
  | none => rfl
  | some j =>
    simp only [Option.map_some']
    have h1 : (rrfK + ((n : ℚ) + ((j + 1 : Nat) : ℚ) + 1)) =
        rrfK + ((((n + 1 : Nat)) : ℚ) + (j : ℚ) + 1) := by
      push_cast
      ring
    have h2 : ((n : Int) + ((j + 1 : Nat) : Int) + 1) =
        (((n + 1 : Nat)) : Int) + (j : Int) + 1 := by
      push_cast
      ring
    rw [h1, h2]

/-- `applyVector` over a cons whose head is the key adds the head's
contribution once (the key being absent from the tail). -/
theorem applyVector_cons_self (n : Nat) (v : Int × ℝ) (rest : List (Int × ℝ))
    (e : Int × RrfAcc) (h : v.1 = e.1) :
    applyVector n (v :: rest) e =
      (e.1,
        { e.2 with
            score := e.2.score + 1 / (rrfK + (n + 1 : ℚ)),
            vectorRank := some ((n : Int) + 1) }) := by
  unfold applyVector
  rw [List.findIdx?_cons, if_pos (by simp [h])]
  have h1 : (rrfK + ((n : ℚ) + ((0 : Nat) : ℚ) + 1)) =
      rrfK + ((n : ℚ) + 1) := by
    push_cast
    ring
  have h2 : ((n : Int) + ((0 : Nat) : Int) + 1) = (n : Int) + 1 := by
    push_cast
    ring
  simp only [h1, h2]

/-- Witness for C6 (amended): dry run on the three-memory witness
returns the table unchanged with zero removals, and the non-dry run's
every recorded pair satisfies the keeper ordering. -/
theorem c6_deduplicate_spec_witness :
    ((deduplicate dedupTestMems true 0 dedupTestDb).2 = dedupTestDb ∧
      (deduplicate dedupTestMems true 0 dedupTestDb).1.duplicatesRemoved = 0) :=
  (c6_deduplicate_spec dedupTestMems true 0 dedupTestDb).2.1 rfl

/-- Pointwise-equal functions map lists equally. -/
theorem map_congr_mem {α β : Type} (l : List α) (f g : α → β)
    (h : ∀ a ∈ l, f a = g a) : l.map f = l.map g := by
  induction l with
  | nil => rfl
  | cons a rest ih =>
    simp only [List.map_cons]
    rw [h a (List.mem_cons_self a rest),
      ih (fun a' ha' => h a' (List.mem_cons_of_mem a ha'))]

/-- Updating a key present in the accumulator maps the matching cells in
place (vector-loop update function). -/
theorem updateAssoc_vec_mem (acc : List (Int × RrfAcc)) (key : Int) (n : Nat)
    (h : acc.any (fun e => e.1 = key)) :
    updateAssoc acc key (fun a =>
      { a with score := a.score + 1 / (rrfK + (n + 1 : ℚ)),
               vectorRank := some ((n : Int) + 1) }) =
      acc.map (fun e => if e.1 = key then (e.1,
        { e.2 with score := e.2.score + 1 / (rrfK + (n + 1 : ℚ)),
                   vectorRank := some ((n : Int) + 1) }) else e) := by
  unfold updateAssoc
  rw [if_pos h]

/-- The in-place vector update does not change the keys. -/
theorem map_update_fst (acc : List (Int × RrfAcc)) (key : Int) (n : Nat) :
    (acc.map (fun e => if e.1 = key then (e.1,
        { e.2 with score := e.2.score + 1 / (rrfK + (n + 1 : ℚ)),
                   vectorRank := some ((n : Int) + 1) }) else e)).map
      (fun e => e.1) = acc.map (fun e => e.1) := by
  rw [List.map_map]
  refine map_congr_mem acc _ _ (fun e _ => ?_)
  by_cases h : e.1 = key
  · simp [Function.comp, h]
  · simp [Function.comp, h]

/-- Applying the head update then the tail pass equals the whole-list
pass, provided the head key does not recur in the tail. -/
theorem map_update_applyVector (acc : List (Int × RrfAcc)) (n : Nat)
    (v : Int × ℝ) (rest : List (Int × ℝ))
    (hrestne : ∀ v' ∈ rest, v'.1 ≠ v.1) :
    (acc.map (fun e => if e.1 = v.1 then (e.1,
        { e.2 with score := e.2.score + 1 / (rrfK + (n + 1 : ℚ)),
                   vectorRank := some ((n : Int) + 1) }) else e)).map
      (applyVector (n + 1) rest) =
      acc.map (applyVector n (v :: rest)) := by
  rw [List.map_map]
  refine map_congr_mem acc _ _ (fun e _ => ?_)
  show applyVector (n + 1) rest (if e.1 = v.1 then (e.1,
      { e.2 with score := e.2.score + 1 / (rrfK + (n + 1 : ℚ)),
                 vectorRank := some ((n : Int) + 1) }) else e) =
    applyVector n (v :: rest) e
  by_cases h : e.1 = v.1
  · rw [if_pos h,
      applyVector_none (n + 1) rest
        (e.1, { e.2 with
            score := e.2.score + 1 / (rrfK + (n + 1 : ℚ)),
            vectorRank := some ((n : Int) + 1) })
        (fun v' hv' hc => hrestne v' hv' (hc.trans h)),
      applyVector_cons_self n v rest e h.symm]
  · rw [if_neg h]
    exact (applyVector_cons_ne n v rest e h).symm

/-- Key sets extended by ids absent from the vector list give the same
vector-only cells. -/
theorem vecOnlyEntries_irrelevant (vec : List (Int × ℝ)) :
    ∀ (n : Nat) (keys extra : List Int), (∀ v ∈ vec, v.1 ∉ extra) →
      vecOnlyEntries n vec (keys ++ extra) = vecOnlyEntries n vec keys := by
  induction vec with
  | nil => intro n keys extra _; rfl
  | cons v rest ih =>
    intro n keys extra hx
    have hv : v.1 ∉ extra := hx v (List.mem_cons_self v rest)
    have htl : ∀ v' ∈ rest, v'.1 ∉ extra :=
      fun v' hv' => hx v' (List.mem_cons_of_mem v hv')
    by_cases hk : v.1 ∈ keys
    · have hk' : v.1 ∈ keys ++ extra := List.mem_append_left extra hk
      simp only [vecOnlyEntries]
      rw [if_pos hk', if_pos hk]
      exact ih (n + 1) keys extra htl
    · have hk' : v.1 ∉ keys ++ extra := by
        intro hc
        rcases List.mem_append.mp hc with h1 | h1
        · exact hk h1
        · exact hv h1
      simp only [vecOnlyEntries]
      rw [if_neg hk', if_neg hk, ih (n + 1) keys extra htl]

/-- The keys of the closed-form BM25 cells are the BM25 result ids. -/
theorem bm25Entries_keys (l : List MemorySearchResult) :
    ∀ n : Nat, (bm25Entries n l).map (fun e => e.1) =
      l.map (fun r => r.memory.id) := by
  induction l with
  | nil => intro n; rfl
  | cons r rest ih =>
    intro n
    simp only [bm25Entries, List.map_cons, ih (n + 1)]

/-- The keys of the vector-only cells are the vector ids missing from
the key set, in list order. -/
theorem vecOnlyEntries_map_fst (vec : List (Int × ℝ)) :
    ∀ (n : Nat) (keys : List Int),
      (vecOnlyEntries n vec keys).map (fun e => e.1) =
        (vec.map (fun v => v.1)).filter (fun i => decide (i ∉ keys)) := by
  induction vec with
  | nil => intro n keys; rfl
  | cons v rest ih =>
    intro n keys
    by_cases hk : v.1 ∈ keys
    · simp only [vecOnlyEntries]
      rw [if_pos hk, ih (n + 1) keys]
      simp [List.filter_cons, hk]
    · simp only [vecOnlyEntries]
      rw [if_neg hk]
      simp only [List.map_cons]
      rw [ih (n + 1) keys]
      simp [List.filter_cons, hk]

/-- Closed form of the vector accumulation loop over distinct vector
ids: every pre-existing cell receives its single vector contribution in
place, and cells for fresh ids are appended in list order. -/
theorem addVector_eq (vec : List (Int × ℝ)) :
    ∀ (acc : List (Int × RrfAcc)) (n : Nat),
      (vec.map (fun v => v.1)).Nodup →
      addVector acc n vec =
        acc.map (applyVector n vec) ++
          vecOnlyEntries n vec (acc.map (fun e => e.1)) := by
  induction vec with
  | nil =>
    intro acc n _
    simp only [addVector, vecOnlyEntries, List.append_nil]
    rw [map_congr_mem acc (applyVector n []) id
      (fun e _ => applyVector_none n [] e (by simp)), List.map_id]
  | cons v rest ih =>
    intro acc n hnd
    have hhead : v.1 ∉ rest.map (fun x => x.1) :=
      (List.nodup_cons.mp (by simpa using hnd)).1
    have htail : (rest.map (fun x => x.1)).Nodup :=
      (List.nodup_cons.mp (by simpa using hnd)).2
    have hrestne : ∀ v' ∈ rest, v'.1 ≠ v.1 := by
      intro v' hv' hc
      exact hhead (hc ▸ List.mem_map_of_mem (fun x => x.1) hv')
    simp only [addVector]
    by_cases hmem : acc.any (fun e => e.1 = v.1)
    · have hkey : v.1 ∈ acc.map (fun e => e.1) := by
        obtain ⟨e, he, heq⟩ := List.any_eq_true.mp hmem
        exact (decide_eq_true_eq.mp heq) ▸
          List.mem_map_of_mem (fun e => e.1) he
      rw [updateAssoc_vec_mem acc v.1 n hmem, ih _ (n + 1) htail,
        map_update_fst acc v.1 n, map_update_applyVector acc n v rest hrestne,
        show vecOnlyEntries n (v :: rest) (acc.map (fun e => e.1)) =
            vecOnlyEntries (n + 1) rest (acc.map (fun e => e.1)) from by
          simp only [vecOnlyEntries]
          rw [if_pos hkey]]
    · have hfr : ∀ e ∈ acc, e.1 ≠ v.1 := by
        intro e he hc
        exact hmem (List.any_eq_true.mpr ⟨e, he, decide_eq_true hc⟩)
      have hnk : v.1 ∉ acc.map (fun e => e.1) := by
        intro hc
        obtain ⟨e, he, heq⟩ := List.mem_map.mp hc
        exact hfr e he heq
      rw [updateAssoc_fresh acc v.1 _ hfr]
      simp only [emptyAcc, zero_add]
      rw [ih _ (n + 1) htail, List.map_append, List.map_append]
      simp only [List.map_cons, List.map_nil]
      rw [applyVector_none (n + 1) rest
          (v.1, { score := 1 / (rrfK + (n + 1 : ℚ)), bm25Rank := none,
                  vectorRank := some ((n : Int) + 1), memory := none })
          (fun v' hv' hc => hrestne v' hv' hc),
        vecOnlyEntries_irrelevant rest (n + 1) (acc.map (fun e => e.1)) [v.1]
          (fun v' hv' => by simp [hrestne v' hv']),
        map_congr_mem acc (applyVector (n + 1) rest) (applyVector n (v :: rest))
          (fun e he => (applyVector_cons_ne n v rest e (hfr e he)).symm),
        show vecOnlyEntries n (v :: rest) (acc.map (fun e => e.1)) =
            (v.1, { score := 1 / (rrfK + (n + 1 : ℚ)), bm25Rank := none,
                    vectorRank := some ((n : Int) + 1), memory := none }) ::
            vecOnlyEntries (n + 1) rest (acc.map (fun e => e.1)) from by
          simp only [vecOnlyEntries]
          rw [if_neg hnk]]
      simp

/-- Every closed-form BM25 cell carries the reciprocal of its 1-based
rank (offset by `n`) and a memory whose id is the cell key. -/
theorem bm25Entries_spec (l : List MemorySearchResult) :
    ∀ n : Nat, (l.map (fun r => r.memory.id)).Nodup →
      ∀ e ∈ bm25Entries n l,
        (∃ k, (l.map (fun r => r.memory.id)).findIdx? (fun i => i = e.1)
            = some k ∧
          e.2.score = 1 / (rrfK + ((n : ℚ) + (k : ℚ) + 1))) ∧
        (∃ m : Memory, e.2.memory = some m ∧ m.id = e.1) ∧
        e.1 ∈ l.map (fun r => r.memory.id) := by
  induction l with
  | nil =>
    intro n _ e he
    simp [bm25Entries] at he
  | cons r rest ih =>
    intro n hnd e he
    have hhead : r.memory.id ∉ rest.map (fun x => x.memory.id) :=
      (List.nodup_cons.mp (by simpa using hnd)).1
    have htail : (rest.map (fun x => x.memory.id)).Nodup :=
      (List.nodup_cons.mp (by simpa using hnd)).2
    simp only [bm25Entries] at he
    rcases List.mem_cons.mp he with hhd | htl
    · subst hhd
      refine ⟨⟨0, ?_, ?_⟩, ⟨responseToMemory r.memory, rfl, rfl⟩, ?_⟩
      · rw [List.map_cons, List.findIdx?_cons, if_pos (by simp)]
      · show (1 : ℚ) / (rrfK + ((n : ℚ) + 1)) =
          1 / (rrfK + ((n : ℚ) + ((0 : Nat) : ℚ) + 1))
        norm_num
      · simp
    · obtain ⟨⟨k, hfind, hscore⟩, hmm, hinl⟩ := ih (n + 1) htail e htl
      have hne : r.memory.id ≠ e.1 := fun hc => hhead (hc ▸ hinl)
      refine ⟨⟨k + 1, ?_, ?_⟩, hmm, ?_⟩
      · rw [List.map_cons, List.findIdx?_cons, if_neg (by simpa using hne),
          List.findIdx?_succ, hfind]
        rfl
      · rw [hscore]
        push_cast
        ring
      · rw [List.map_cons]
        exact List.mem_cons_of_mem _ hinl

/-- Every vector-only cell carries the reciprocal of its 1-based vector
rank (offset by `n`), no memory, and a key outside the key set. -/
theorem vecOnlyEntries_spec (vec : List (Int × ℝ)) :
    ∀ (n : Nat) (keys : List Int), (vec.map (fun v => v.1)).Nodup →
      ∀ e ∈ vecOnlyEntries n vec keys,
        (∃ j, (vec.map (fun v => v.1)).findIdx? (fun i => i = e.1)
            = some j ∧
          e.2.score = 1 / (rrfK + ((n : ℚ) + (j : ℚ) + 1))) ∧
        e.2.memory = none ∧ e.1 ∉ keys ∧
        e.1 ∈ vec.map (fun v => v.1) := by
  induction vec with
  | nil =>
    intro n keys _ e he
    simp [vecOnlyEntries] at he
  | cons v rest ih =>
    intro n keys hnd e he
    have hhead : v.1 ∉ rest.map (fun x => x.1) :=
      (List.nodup_cons.mp (by simpa using hnd)).1
    have htail : (rest.map (fun x => x.1)).Nodup :=
      (List.nodup_cons.mp (by simpa using hnd)).2
    simp only [vecOnlyEntries] at he
    by_cases hk : v.1 ∈ keys
    · rw [if_pos hk] at he
      obtain ⟨⟨j, hfind, hscore⟩, hmm, hnk, hinl⟩ :=
        ih (n + 1) keys htail e he
      have hne : v.1 ≠ e.1 := fun hc => hhead (hc ▸ hinl)
      refine ⟨⟨j + 1, ?_, ?_⟩, hmm, hnk, ?_⟩
      · rw [List.map_cons, List.findIdx?_cons, if_neg (by simpa using hne),
          List.findIdx?_succ, hfind]
        rfl
      · rw [hscore]
        push_cast
        ring
      · rw [List.map_cons]
        exact List.mem_cons_of_mem _ hinl
    · rw [if_neg hk] at he
      rcases List.mem_cons.mp he with hhd | htl
      · subst hhd
        refine ⟨⟨0, ?_, ?_⟩, rfl, hk, ?_⟩
        · rw [List.map_cons, List.findIdx?_cons, if_pos (by simp)]
        · show (1 : ℚ) / (rrfK + ((n : ℚ) + 1)) =
            1 / (rrfK + ((n : ℚ) + ((0 : Nat) : ℚ) + 1))
          norm_num
        · simp
      · obtain ⟨⟨j, hfind, hscore⟩, hmm, hnk, hinl⟩ :=
          ih (n + 1) keys htail e htl
        have hne : v.1 ≠ e.1 := fun hc => hhead (hc ▸ hinl)
        refine ⟨⟨j + 1, ?_, ?_⟩, hmm, hnk, ?_⟩
        · rw [List.map_cons, List.findIdx?_cons, if_neg (by simpa using hne),
            List.findIdx?_succ, hfind]
          rfl
        · rw [hscore]
          push_cast
          ring
        · rw [List.map_cons]
          exact List.mem_cons_of_mem _ hinl

/-- At offset 0 the vector pass adds exactly the reciprocal vector-rank
contribution of the claim, and leaves the stored memory unchanged. -/
theorem applyVector_zero_spec (vec : List (Int × ℝ)) (e : Int × RrfAcc) :
    (applyVector 0 vec e).2.score =
      e.2.score + rankContribution (vec.map (fun v => v.1)) e.1 ∧
    (applyVector 0 vec e).2.memory = e.2.memory := by
  unfold applyVector rankContribution
  rw [findIdx?_map_fst]
  cases h : vec.findIdx? (fun v => v.1 = e.1) with
  | none => simp
  | some j =>
    constructor
    · show e.2.score + 1 / (rrfK + (((0 : Nat) : ℚ) + (j : ℚ) + 1)) =
        e.2.score + 1 / (60 + ((j : ℚ) + 1))
      rw [show rrfK = (60 : ℚ) from rfl]
      norm_num
    · rfl

/-- A rank list containing the id at index `k` contributes the
reciprocal of `60 + k + 1`. -/
theorem rankContribution_of_findIdx (ids : List Int) (mid : Int) (k : Nat)
    (h : ids.findIdx? (fun i => i = mid) = some k) :
    rankContribution ids mid = 1 / (60 + ((k : ℚ) + 1)) := by
  unfold rankContribution
  rw [h]

/-- A rank list not containing the id contributes zero. -/
theorem rankContribution_of_not_mem (ids : List Int) (mid : Int)
    (h : mid ∉ ids) : rankContribution ids mid = 0 := by
  unfold rankContribution
  rw [List.findIdx?_eq_none_iff.mpr (fun i hi => by
    show decide (i = mid) = false
    simp only [decide_eq_false_iff_not]
    exact fun hc => h (hc ▸ hi))]

/-- The materialisation step keeps every entry whose memory resolves,
preserving both the key (as the memory id) and the fused score. -/
theorem rrfMaterialise_spec (lookup : Int → Option Memory) :
    ∀ entries : List (Int × RrfAcc),
      (∀ e ∈ entries, ∃ m : Memory,
        (e.2.memory.orElse (fun _ => lookup e.1)) = some m ∧ m.id = e.1) →
      ((rrfMaterialise lookup entries).map (fun sr => sr.memory.id) =
          entries.map (fun e => e.1)) ∧
      ∀ sr ∈ rrfMaterialise lookup entries,
        ∃ e ∈ entries, sr.score = e.2.score ∧ sr.memory.id = e.1 := by
  intro entries
  induction entries with
  | nil =>
    intro _
    refine ⟨rfl, fun sr hsr => absurd hsr ?_⟩
    rw [show rrfMaterialise lookup [] = [] from rfl]
    exact List.not_mem_nil sr
  | cons e rest ih =>
    intro h
    obtain ⟨m, hm, hid⟩ := h e (List.mem_cons_self e rest)
    obtain ⟨ih1, ih2⟩ := ih (fun e' he' => h e' (List.mem_cons_of_mem e he'))
    have hfa : (fun e : Int × RrfAcc =>
        match e.2.memory.orElse (fun _ => lookup e.1) with
        | some m => some ({ memory := m, score := e.2.score,
                            bm25Rank := e.2.bm25Rank,
                            vectorRank := e.2.vectorRank } : SearchResult)
        | none => none) e =
          some ({ memory := m, score := e.2.score,
                  bm25Rank := e.2.bm25Rank,
                  vectorRank := e.2.vectorRank } : SearchResult) := by
      show (match e.2.memory.orElse (fun _ => lookup e.1) with
        | some m => some ({ memory := m, score := e.2.score,
                            bm25Rank := e.2.bm25Rank,
                            vectorRank := e.2.vectorRank } : SearchResult)
        | none => none) = _
      rw [hm]
    have hconsEq : rrfMaterialise lookup (e :: rest) =
        ({ memory := m, score := e.2.score, bm25Rank := e.2.bm25Rank,
           vectorRank := e.2.vectorRank } : SearchResult) ::
          rrfMaterialise lookup rest := by
      unfold rrfMaterialise
      exact List.filterMap_cons_some hfa
    constructor
    · rw [hconsEq, List.map_cons, List.map_cons, ih1]
      congr 1
    · intro sr hsr
      rw [hconsEq] at hsr
      rcases List.mem_cons.mp hsr with hh | ht
      · exact ⟨e, List.mem_cons_self e rest, by rw [hh], by rw [hh]; exact hid⟩
      · obtain ⟨e', he', h1, h2⟩ := ih2 sr ht
        exact ⟨e', List.mem_cons_of_mem e he', h1, h2⟩

/-- Unfolding of `reciprocal_rank_fusion` into its accumulation,
materialisation, sort and truncation stages. -/
theorem reciprocalRankFusion_eq (lookup : Int → Option Memory)
    (bm25Results : List MemorySearchResult)
    (vectorResults : List (Int × ℝ)) (lim : Nat) :
    reciprocalRankFusion lookup bm25Results vectorResults lim =
      ((rrfMaterialise lookup
          (rrfEntries bm25Results vectorResults)).insertionSort
        scoreDescRel).take lim := rfl

/-- C1 (confirmed): when the BM25 ids and the vector ids are each
duplicate-free and every id resolves through the lookup, the hybrid
search result is the descending-score truncation of the union of the
two lists, each member scored by Reciprocal Rank Fusion with `k = 60`
(the sum over the lists containing it of `1 / (60 + rank)`, zero from a
list it is absent from); and when vector search is disabled or the
query embedding fails, the result is the BM25 list in BM25 order
truncated to the limit. -/
theorem c1_hybrid_search_rrf (lookup : Int → Option Memory)
    (bm25 : List MemorySearchResult) (vec : List (Int × ℝ)) (lim : Nat)
    (hbm : (bm25.map (fun r => r.memory.id)).Nodup)
    (hvec : (vec.map (fun v => v.1)).Nodup)
    (hlook : ∀ mid : Int, ∃ m : Memory, lookup mid = some m ∧ m.id = mid) :
    (∀ venabled eok : Bool, venabled = false ∨ eok = false →
      (hybridSearch venabled eok lookup bm25 vec lim).map
          (fun sr => sr.memory) =
        (bm25.take lim).map (fun r => responseToMemory r.memory)) ∧
    ∃ full : List SearchResult,
      hybridSearch true true lookup bm25 vec lim = full.take lim ∧
      (full.map (fun sr => sr.memory.id)).Perm
        (bm25.map (fun r => r.memory.id) ++
          (vec.map (fun v => v.1)).filter
            (fun i => decide (i ∉ bm25.map (fun r => r.memory.id)))) ∧
      List.Sorted scoreDescRel full ∧
      ∀ sr ∈ full, sr.score =
        rrfScoreSpec (bm25.map (fun r => r.memory.id))
          (vec.map (fun v => v.1)) sr.memory.id := by
  constructor
  · rintro venabled eok (hv | he)
    · subst hv
      simp [hybridSearch, List.map_map, Function.comp_def]
    · subst he
      cases venabled <;> simp [hybridSearch, List.map_map, Function.comp_def]
  · have hE : rrfEntries bm25 vec =
        (bm25Entries 0 bm25).map (applyVector 0 vec) ++
          vecOnlyEntries 0 vec (bm25.map (fun r => r.memory.id)) := by
      unfold rrfEntries
      rw [show addBm25 [] 0 bm25 = bm25Entries 0 bm25 from by
          simpa using addBm25_eq bm25 [] 0 hbm
            (fun r _ e he => absurd he (List.not_mem_nil e)),
        addVector_eq vec _ 0 hvec, bm25Entries_keys bm25 0]
    have hres : ∀ e ∈ rrfEntries bm25 vec, ∃ m : Memory,
        (e.2.memory.orElse (fun _ => lookup e.1)) = some m ∧ m.id = e.1 := by
      intro e he
      rw [hE] at he
      rcases List.mem_append.mp he with h1 | h1
      · obtain ⟨e0, he0, heq⟩ := List.mem_map.mp h1
        obtain ⟨-, ⟨m, hm, hid⟩, -⟩ := bm25Entries_spec bm25 0 hbm e0 he0
        subst heq
        refine ⟨m, ?_, ?_⟩
        · rw [(applyVector_zero_spec vec e0).2, hm]
          rfl
        · rw [applyVector_fst 0 vec e0]
          exact hid
      · obtain ⟨-, hmm, -, -⟩ := vecOnlyEntries_spec vec 0 _ hvec e h1
        obtain ⟨m, hl, hid⟩ := hlook e.1
        refine ⟨m, ?_, hid⟩
        rw [hmm]
        exact hl
    have hscoreE : ∀ e ∈ rrfEntries bm25 vec,
        e.2.score = rrfScoreSpec (bm25.map (fun r => r.memory.id))
          (vec.map (fun v => v.1)) e.1 := by
      intro e he
      rw [hE] at he
      rcases List.mem_append.mp he with h1 | h1
      · obtain ⟨e0, he0, heq⟩ := List.mem_map.mp h1
        obtain ⟨⟨k, hfind, hsc⟩, -, -⟩ := bm25Entries_spec bm25 0 hbm e0 he0
        subst heq
        rw [(applyVector_zero_spec vec e0).1, applyVector_fst 0 vec e0, hsc]
        unfold rrfScoreSpec
        rw [rankContribution_of_findIdx _ _ k hfind,
          show rrfK = (60 : ℚ) from rfl]
        push_cast
        ring
      · obtain ⟨⟨j, hfind, hsc⟩, -, hnk, -⟩ :=
          vecOnlyEntries_spec vec 0 _ hvec e h1
        rw [hsc]
        unfold rrfScoreSpec
        rw [rankContribution_of_findIdx _ _ j hfind,
          rankContribution_of_not_mem _ _ hnk,
          show rrfK = (60 : ℚ) from rfl]
        push_cast
        ring
    obtain ⟨hmat1, hmat2⟩ := rrfMaterialise_spec lookup (rrfEntries bm25 vec) hres
    have hEfst : (rrfEntries bm25 vec).map (fun e => e.1) =
        bm25.map (fun r => r.memory.id) ++
          (vec.map (fun v => v.1)).filter
            (fun i => decide (i ∉ bm25.map (fun r => r.memory.id))) := by
      rw [hE, List.map_append, List.map_map,
        map_congr_mem (bm25Entries 0 bm25)
          ((fun e : Int × RrfAcc => e.1) ∘ applyVector 0 vec)
          (fun e => e.1) (fun e0 _ => applyVector_fst 0 vec e0),
        bm25Entries_keys bm25 0,
        vecOnlyEntries_map_fst vec 0 (bm25.map (fun r => r.memory.id))]
    refine ⟨(rrfMaterialise lookup (rrfEntries bm25 vec)).insertionSort
        scoreDescRel, ?_, ?_, ?_, ?_⟩
    · rw [show hybridSearch true true lookup bm25 vec lim =
          reciprocalRankFusion lookup bm25 vec lim from rfl,
        reciprocalRankFusion_eq]
    · have hperm := (List.perm_insertionSort scoreDescRel
        (rrfMaterialise lookup (rrfEntries bm25 vec))).map
          (fun sr => sr.memory.id)
      rw [hmat1, hEfst] at hperm
      exact hperm
    · exact List.sorted_insertionSort scoreDescRel _
    · intro sr hsr
      obtain ⟨e, he, hs, hid⟩ :=
        hmat2 sr ((List.mem_insertionSort scoreDescRel).mp hsr)
      rw [hs, hid]
      exact hscoreE e he

/-- Witness for C1: the theorem applies to a concrete two-element BM25
list (ids 10, 11), a concrete two-element vector list (ids 11, 12) and
a total lookup, every hypothesis holding by evaluation. -/
theorem c1_hybrid_search_rrf_witness :
    (c1Bm25.map (fun r => r.memory.id)).Nodup ∧
    (c1Vec.map (fun v => v.1)).Nodup ∧
    ((∀ venabled eok : Bool, venabled = false ∨ eok = false →
      (hybridSearch venabled eok c1Lookup c1Bm25 c1Vec 3).map
          (fun sr => sr.memory) =
        (c1Bm25.take 3).map (fun r => responseToMemory r.memory)) ∧
    ∃ full : List SearchResult,
      hybridSearch true true c1Lookup c1Bm25 c1Vec 3 = full.take 3 ∧
      (full.map (fun sr => sr.memory.id)).Perm
        (c1Bm25.map (fun r => r.memory.id) ++
          (c1Vec.map (fun v => v.1)).filter
            (fun i => decide (i ∉ c1Bm25.map (fun r => r.memory.id)))) ∧
      List.Sorted scoreDescRel full ∧
      ∀ sr ∈ full, sr.score =
        rrfScoreSpec (c1Bm25.map (fun r => r.memory.id))
          (c1Vec.map (fun v => v.1)) sr.memory.id) :=
  ⟨by decide, by decide,
    c1_hybrid_search_rrf c1Lookup c1Bm25 c1Vec 3 (by decide) (by decide)
      (fun mid => ⟨mkTestMemory mid MemoryType.longTerm "m" 5 0 none none,
        rfl, rfl⟩)⟩

end StarkBot
